import Mathlib

/-!
Verification development for the JSON-SQLParser repository: a shallow
embedding, in Lean 4, of the JavaScript SQL-over-JSON query engines found in
`src/chatgpt.js` (the unified engine), `src/index.js` (window-function
engine), `src/backup.js` and `src/unnamed/part_001` (expression-pipeline
engine), together with theorems settling the specification claims about
joins, grouping, window ranks, LIMIT/OFFSET, error handling, dataset
immutability, division by zero, unknown functions, the header-uppercase
hint, and the aggregate registry.

JavaScript numbers are modelled by `JNum`, an exact-rational type tagged
with NaN and the two infinities; JavaScript values by `Value`; a JavaScript
object holding row data by `Row`, an insertion-ordered association list with
unique keys.  Dynamic behaviours (property lookup/assignment, `??`, `||`,
`String(...)`, `Number(...)`, `Array.prototype.join`) are modelled by
explicit functions defined right next to their uses.
-/

namespace JsonSqlParser

/-- JavaScript number: NaN, +Infinity, -Infinity, or an exact rational.
Arithmetic on the values that occur in this codebase (integer-valued data,
sums, averages) is exact, so `Rat` is a faithful carrier; negative zero is
not distinguished from zero (no modelled operation depends on it). -/
inductive JNum where
  | nan
  | inf
  | negInf
  | num (q : ℚ)
deriving DecidableEq, Repr

/-- JavaScript value as it occurs in this engine: `undefined`, `null`, a
boolean, a number, or a string.  (No object/array values flow through the
scalar paths that the claims are about.) -/
inductive Value where
  | vUndef
  | vNull
  | vBool (b : Bool)
  | vNum (n : JNum)
  | vStr (s : String)
deriving DecidableEq, Repr

instance : Inhabited Value := ⟨Value.vUndef⟩

/-- A row object: insertion-ordered association list from property name to
value.  JavaScript objects have unique keys; rows built by the engine (and
by `jsSet`/`mergeRows` below) keep that invariant. -/
abbrev Row := List (String × Value)

/-- Property read `r[k]`: the value at key `k`, or `undefined` if absent. -/
def jsIndex (r : Row) (k : String) : Value :=
  match r.find? (fun p => p.1 = k) with
  | some p => p.2
  | none => Value.vUndef

/-- Does the object have the property at all (`k in r`)? -/
def hasKey (r : Row) (k : String) : Bool :=
  (r.find? (fun p => p.1 = k)).isSome

/-- Property write `r[k] = v`: update the value in place if the key exists
(JavaScript keeps the original insertion slot), else append a new entry. -/
def jsSet (r : Row) (k : String) (v : Value) : Row :=
  if hasKey r k then r.map (fun p => if p.1 = k then (k, v) else p)
  else r ++ [(k, v)]

/-- Object spread `{ ...a, ...b }`: start from `a` and assign each entry of
`b` in order (later keys overwrite in place, new keys append). -/
def mergeRows (a b : Row) : Row :=
  b.foldl (fun acc p => jsSet acc p.1 p.2) a

/-- ASCII lower-casing of a character, as `String.prototype.toLowerCase`
acts on the ASCII queries and column names this repository uses. -/
def jsCharLow (c : Char) : Char :=
  if 65 ≤ c.toNat ∧ c.toNat ≤ 90 then Char.ofNat (c.toNat + 32) else c

/-- ASCII upper-casing of a character, as `String.prototype.toUpperCase`
acts on the ASCII data this repository uses. -/
def jsCharUp (c : Char) : Char :=
  if 97 ≤ c.toNat ∧ c.toNat ≤ 122 then Char.ofNat (c.toNat - 32) else c

/-- Lower-case a string (`s.toLowerCase()`), ASCII model. -/
def jsLowerStr (s : String) : String := ⟨s.data.map jsCharLow⟩

/-- Upper-case a string (`s.toUpperCase()`), ASCII model. -/
def jsUpperStr (s : String) : String := ⟨s.data.map jsCharUp⟩

/-- Whitespace class of JavaScript regex `\s` / `String.prototype.trim`,
restricted to the characters that occur here. -/
def isSpaceChar (c : Char) : Bool :=
  c = ' ' ∨ c = '\t' ∨ c = '\n' ∨ c = '\r'

/-- String trim (`s.trim()`): strip leading and trailing whitespace. -/
def jsTrim (s : String) : String :=
  ⟨((s.data.dropWhile isSpaceChar).reverse.dropWhile isSpaceChar).reverse⟩

/-- Decimal digit run value. -/
def digitsVal (l : List Char) : ℕ :=
  l.foldl (fun a c => a * 10 + (c.toNat - 48)) 0

/-- Parse an unsigned decimal literal `digits[.digits]` into a rational. -/
def parseUnsignedDec (l : List Char) : Option ℚ :=
  let intPart := l.takeWhile Char.isDigit
  let rest := l.drop intPart.length
  if intPart.isEmpty then none
  else match rest with
    | [] => some (digitsVal intPart : ℚ)
    | '.' :: frac =>
        if frac.all Char.isDigit ∧ ¬ frac.isEmpty then
          some ((digitsVal intPart : ℚ) + (digitsVal frac : ℚ) / ((10 : ℚ) ^ frac.length))
        else none
    | _ => none

/-- Numeric coercion of a string, modelling `Number(s)`: empty/whitespace
is 0, decimal literals (optionally signed, optionally fractional) parse
exactly, the `Infinity` spellings parse to the infinities, and anything
else is NaN.  (Hex and exponent literals do not occur in this repository
and are mapped to NaN.) -/
def jsStringToNum (s : String) : JNum :=
  let t := (jsTrim s).data
  if t.isEmpty then JNum.num 0
  else if t = "Infinity".data ∨ t = "+Infinity".data then JNum.inf
  else if t = "-Infinity".data then JNum.negInf
  else
    match t with
    | '-' :: rest => match parseUnsignedDec rest with
      | some q => JNum.num (-q)
      | none => JNum.nan
    | '+' :: rest => match parseUnsignedDec rest with
      | some q => JNum.num q
      | none => JNum.nan
    | _ => match parseUnsignedDec t with
      | some q => JNum.num q
      | none => JNum.nan

/-- Numeric coercion `Number(v)` (ECMAScript ToNumber on these values). -/
def jsToNumber : Value → JNum
  | Value.vUndef => JNum.nan
  | Value.vNull => JNum.num 0
  | Value.vBool b => JNum.num (if b then 1 else 0)
  | Value.vNum n => n
  | Value.vStr s => jsStringToNum s

/-- The global `isNaN(v)` test (coerces, then checks for NaN). -/
def jsIsNaN (v : Value) : Bool := jsToNumber v = JNum.nan

/-- String coercion `String(v)`.  Exact for the values this engine moves
around; a non-integral rational renders as its `Rat` representation (JS
float formatting is not modelled, and no theorem depends on it). -/
def jsToString : Value → String
  | Value.vUndef => "undefined"
  | Value.vNull => "null"
  | Value.vBool b => if b then "true" else "false"
  | Value.vStr s => s
  | Value.vNum JNum.nan => "NaN"
  | Value.vNum JNum.inf => "Infinity"
  | Value.vNum JNum.negInf => "-Infinity"
  | Value.vNum (JNum.num q) => if q.den = 1 then toString q.num else toString q

/-- Element coercion used by `Array.prototype.join`: `null` and
`undefined` become the empty string; everything else is `String(v)`. -/
def joinElemToString (v : Value) : String :=
  match v with
  | Value.vUndef => ""
  | Value.vNull => ""
  | v => jsToString v

/-- The separator-join `arr.join(sep)` of JavaScript on already-coerced
strings: separator between consecutive elements, nothing else. -/
def jsJoin (sep : String) : List String → String
  | [] => ""
  | [x] => x
  | x :: xs => x ++ sep ++ jsJoin sep xs

/-- JavaScript truthiness of a value. -/
def truthy : Value → Bool
  | Value.vUndef => false
  | Value.vNull => false
  | Value.vBool b => b
  | Value.vNum JNum.nan => false
  | Value.vNum (JNum.num q) => q ≠ 0
  | Value.vNum _ => true
  | Value.vStr s => s ≠ ""

/-- Is the value nullish (`v == null`, also the test of `??`). -/
def isNullish : Value → Bool
  | Value.vUndef => true
  | Value.vNull => true
  | _ => false

/-- JavaScript addition on numbers (after ToNumber): NaN absorbs, opposite
infinities give NaN, an infinity otherwise wins, finite values add. -/
def jadd : JNum → JNum → JNum
  | JNum.nan, _ => JNum.nan
  | _, JNum.nan => JNum.nan
  | JNum.inf, JNum.negInf => JNum.nan
  | JNum.negInf, JNum.inf => JNum.nan
  | JNum.inf, _ => JNum.inf
  | _, JNum.inf => JNum.inf
  | JNum.negInf, _ => JNum.negInf
  | _, JNum.negInf => JNum.negInf
  | JNum.num a, JNum.num b => JNum.num (a + b)

/-- JavaScript division on numbers: NaN absorbs; `x / 0` is `Infinity`
for positive `x`, `-Infinity` for negative `x`, NaN for `0 / 0`; a finite
value divided by an infinity is 0; infinities divide finite values with
the usual signs; `Infinity / Infinity` is NaN. -/
def jdiv : JNum → JNum → JNum
  | JNum.nan, _ => JNum.nan
  | _, JNum.nan => JNum.nan
  | JNum.inf, JNum.inf => JNum.nan
  | JNum.inf, JNum.negInf => JNum.nan
  | JNum.negInf, JNum.inf => JNum.nan
  | JNum.negInf, JNum.negInf => JNum.nan
  | JNum.inf, JNum.num b => if 0 ≤ b then JNum.inf else JNum.negInf
  | JNum.negInf, JNum.num b => if 0 ≤ b then JNum.negInf else JNum.inf
  | JNum.num _, JNum.inf => JNum.num 0
  | JNum.num _, JNum.negInf => JNum.num 0
  | JNum.num a, JNum.num b =>
      if b = 0 then
        if a = 0 then JNum.nan else if 0 < a then JNum.inf else JNum.negInf
      else JNum.num (a / b)

/-- Binary minimum as `Math.min` computes it: NaN contaminates. -/
def jnumMin : JNum → JNum → JNum
  | JNum.nan, _ => JNum.nan
  | _, JNum.nan => JNum.nan
  | JNum.negInf, _ => JNum.negInf
  | _, JNum.negInf => JNum.negInf
  | JNum.inf, b => b
  | a, JNum.inf => a
  | JNum.num a, JNum.num b => JNum.num (min a b)

/-- Binary maximum as `Math.max` computes it: NaN contaminates. -/
def jnumMax : JNum → JNum → JNum
  | JNum.nan, _ => JNum.nan
  | _, JNum.nan => JNum.nan
  | JNum.inf, _ => JNum.inf
  | _, JNum.inf => JNum.inf
  | JNum.negInf, b => b
  | a, JNum.negInf => a
  | JNum.num a, JNum.num b => JNum.num (max a b)

/-- ECMAScript abstract relational comparison `a < b` restricted to these
values: two strings compare lexicographically by code unit, otherwise both
sides coerce with ToNumber and NaN makes the comparison false. -/
def jsRelLt (a b : Value) : Bool :=
  match a, b with
  | Value.vStr s, Value.vStr t => decide (s < t)
  | _, _ =>
      match jsToNumber a, jsToNumber b with
      | JNum.nan, _ => false
      | _, JNum.nan => false
      | JNum.inf, _ => false
      | JNum.negInf, JNum.negInf => false
      | JNum.negInf, _ => true
      | JNum.num _, JNum.inf => true
      | JNum.num _, JNum.negInf => false
      | JNum.num x, JNum.num y => decide (x < y)

/-! ### Function registry of `src/chatgpt.js` (lines 38-57) -/

/-- The filter applied by the aggregates of `src/chatgpt.js`
(`v => v != null && v !== 'NULL'`): drop `null`/`undefined` and the
string marker `'NULL'`. -/
def keepAggVal (v : Value) : Bool :=
  ¬ isNullish v ∧ v ≠ Value.vStr "NULL"

/-- The reduce step of `sum`/`avg` in `src/chatgpt.js` line 43:
`a + Number(b || 0)` — a falsy value is replaced by 0 before the numeric
coercion; a truthy value is coerced as-is (so a truthy non-numeric string
contributes NaN). -/
def sumStepCG (a : JNum) (b : Value) : JNum :=
  jadd a (jsToNumber (if truthy b then b else Value.vNum (JNum.num 0)))

/-- `sqlFunctions.sum` of `src/chatgpt.js` line 43. -/
def sumCG (vals : List Value) : JNum :=
  (vals.filter keepAggVal).foldl sumStepCG (JNum.num 0)

/-- `sqlFunctions.count` of `src/chatgpt.js` line 44. -/
def countCG (vals : List Value) : ℕ := (vals.filter keepAggVal).length

/-- `sqlFunctions.avg` of `src/chatgpt.js` lines 45-48: 0 on an empty
filtered list, else the `sum`-style reduce divided by the length. -/
def avgCG (vals : List Value) : JNum :=
  let v := vals.filter keepAggVal
  if v.length = 0 then JNum.num 0
  else jdiv (v.foldl sumStepCG (JNum.num 0)) (JNum.num v.length)

/-- `sqlFunctions.min` of `src/chatgpt.js` lines 49-52: filter, coerce all
to numbers, `Math.min` over them, or the string `'NULL'` when empty. -/
def minCG (vals : List Value) : Value :=
  match (vals.filter keepAggVal).map jsToNumber with
  | [] => Value.vStr "NULL"
  | h :: t => Value.vNum (t.foldl jnumMin h)

/-- `sqlFunctions.max` of `src/chatgpt.js` lines 53-56. -/
def maxCG (vals : List Value) : Value :=
  match (vals.filter keepAggVal).map jsToNumber with
  | [] => Value.vStr "NULL"
  | h :: t => Value.vNum (t.foldl jnumMax h)

/-- `sqlFunctions.upper` of `src/chatgpt.js` line 39:
`String(v ?? '').toUpperCase()` on the first argument. -/
def upperCG (vals : List Value) : Value :=
  let v := vals.headD Value.vUndef
  Value.vStr (jsUpperStr (jsToString (if isNullish v then Value.vStr "" else v)))

/-- `sqlFunctions.lower` of `src/chatgpt.js` line 40. -/
def lowerCG (vals : List Value) : Value :=
  let v := vals.headD Value.vUndef
  Value.vStr (jsLowerStr (jsToString (if isNullish v then Value.vStr "" else v)))

/-- `sqlFunctions.coalesce` of `src/chatgpt.js` line 41: first argument
that is not nullish, not `'NULL'` and not empty, defaulting to `'NULL'`. -/
def coalesceCG (vals : List Value) : Value :=
  match vals.find? (fun v => ¬ isNullish v ∧ v ≠ Value.vStr "NULL" ∧ v ≠ Value.vStr "") with
  | some v => v
  | none => Value.vStr "NULL"

/-- The function registry object `sqlFunctions` of `src/chatgpt.js`
(lines 38-57), as a case-sensitive name lookup (`sqlFunctions[name]`). -/
def sqlFunctionsCG (name : String) : Option (List Value → Value) :=
  if name = "upper" then some upperCG
  else if name = "lower" then some lowerCG
  else if name = "coalesce" then some coalesceCG
  else if name = "sum" then some (fun vs => Value.vNum (sumCG vs))
  else if name = "count" then some (fun vs => Value.vNum (JNum.num (countCG vs)))
  else if name = "avg" then some (fun vs => Value.vNum (avgCG vs))
  else if name = "min" then some minCG
  else if name = "max" then some maxCG
  else none

/-! ### Aggregates of `src/index.js` (lines 7-24)

The filter is the same (`v !== null && v !== "NULL" && v !== undefined`)
but the reduce step is `a + (Number(b) || 0)`: the coercion happens first,
and a falsy result — in particular NaN — is then replaced by 0. -/

/-- The reduce step of `sum`/`avg` in `src/index.js` lines 9 and 14:
`a + (Number(b) || 0)`. -/
def sumStepIdx (a : JNum) (b : Value) : JNum :=
  jadd a (match jsToNumber b with
          | JNum.nan => JNum.num 0
          | n => n)

/-- `sqlFunctions.sum` of `src/index.js` lines 7-10. -/
def sumIdx (vals : List Value) : JNum :=
  (vals.filter keepAggVal).foldl sumStepIdx (JNum.num 0)

/-- `sqlFunctions.avg` of `src/index.js` lines 12-15. -/
def avgIdx (vals : List Value) : JNum :=
  let v := vals.filter keepAggVal
  if v.length = 0 then JNum.num 0
  else jdiv (v.foldl sumStepIdx (JNum.num 0)) (JNum.num v.length)

/-! ### Join engine of `src/chatgpt.js` (executeQuery JOIN loop, lines 214-246) -/

/-- Join kinds recognised by the chatgpt.js parser (`match[1] || 'inner'`). -/
inductive JoinKind where
  | inner
  | left
  | right
  | full
deriving DecidableEq, Repr

/-- Does the kind preserve unmatched left rows
(`j.type === 'left' || j.type === 'full'`, line 232)? -/
def keepsLeft : JoinKind → Bool
  | JoinKind.left => true
  | JoinKind.full => true
  | _ => false

/-- Does the kind preserve unmatched right rows
(`j.type === 'right' || j.type === 'full'`, line 237)? -/
def keepsRight : JoinKind → Bool
  | JoinKind.right => true
  | JoinKind.full => true
  | _ => false

/-- The join equality test of line 225:
`String(leftRow[lKey]) === String(rightRow[rKey])`. -/
def joinKeyEq (lKey rKey : String) (l r : Row) : Bool :=
  jsToString (jsIndex l lKey) = jsToString (jsIndex r rKey)

/-- One step of the JOIN loop of `src/chatgpt.js` lines 214-246: for each
left row, every matching right row yields the spread-merged pair; a left
row with no match is pushed as-is (a copy) for left/full joins; after the
left loop, every right row matched by no left row is pushed as-is for
right/full joins (`matchedRight` collects exactly the indices of right
rows matched by some left row, so the unmatched test is value-based). -/
def joinStep (kind : JoinKind) (lKey rKey : String) (left right : List Row) : List Row :=
  (left.flatMap fun l =>
    let ms := right.filter (joinKeyEq lKey rKey l)
    ms.map (fun r => mergeRows l r) ++
      (if ms.isEmpty ∧ keepsLeft kind then [l] else []))
  ++ (if keepsRight kind then
        right.filter (fun r => left.all fun l => ¬ joinKeyEq lKey rKey l r)
      else [])

/-! ### Select tokens and the GROUP BY stage of `src/chatgpt.js` (lines 253-269) -/

/-- A parsed select item of `src/chatgpt.js` `parseToken` (lines 118-131).
`aggFunc`/`aggCol` are `null` unless `isAgg`; `aggCol` is `null` for `*`. -/
structure TokenCG where
  expr : String
  /-- the `alias` field of the source token (`alias` is a Lean keyword) -/
  aliasName : String
  isAgg : Bool
  aggFunc : Option String
  aggCol : Option String
  isWin : Bool
deriving DecidableEq, Repr

/-- The grouping key of line 257: `keys.map(c => r[c]).join('|')` —
raw property reads coerced by `Array.prototype.join` (nullish becomes the
empty string) and glued with the printable `'|'` separator. -/
def groupKeyCG (keys : List String) (r : Row) : String :=
  jsJoin "|" (keys.map (fun c => joinElemToString (jsIndex r c)))

/-- Append a row to its bucket (`groups[k] ??= …` then push): buckets are
kept in first-appearance order of their key; a row whose key is already
present joins that bucket, otherwise a fresh bucket is created. -/
def insertBucket (acc : List (String × List Row)) (k : String) (r : Row) :
    List (String × List Row) :=
  if (acc.find? (fun b => b.1 = k)).isSome then
    acc.map (fun b => if b.1 = k then (b.1, b.2 ++ [r]) else b)
  else acc ++ [(k, [r])]

/-- The bucket structure the GROUP BY fold of lines 255-263 builds: for
each bucket, its key and its member rows in encounter order.  (The source
stores the first member row plus, per aggregate alias, the list of that
argument's values over the members; `groupStageCG` below recovers exactly
those projections from the member list.) -/
def bucketsCG (keys : List String) (rows : List Row) : List (String × List Row) :=
  rows.foldl (fun acc r => insertBucket acc (groupKeyCG keys r) r) []

/-- The aggregate argument pushed for one row (line 261):
`t.aggCol ? r[t.aggCol] : 1` — a missing or empty column name means the
constant 1 (the `count(*)` encoding). -/
def aggArgOf (t : TokenCG) (r : Row) : Value :=
  match t.aggCol with
  | some c => if c ≠ "" then jsIndex r c else Value.vNum (JNum.num 1)
  | none => Value.vNum (JNum.num 1)

/-- Apply one aggregate token over a bucket's member rows
(`sqlFunctions[t.aggFunc](g.aggs[t.alias])`, line 266). `isAgg` tokens
always carry a registered function name, so the default branch is dead. -/
def applyAggCG (t : TokenCG) (members : List Row) : Value :=
  match sqlFunctionsCG (t.aggFunc.getD "") with
  | some f => f (members.map (aggArgOf t))
  | none => Value.vUndef

/-- The GROUP BY + AGG stage of `src/chatgpt.js` lines 253-269: bucket the
rows by `groupKeyCG`, then map each bucket to a copy of its first row with
every aggregate alias assigned. -/
def groupStageCG (keys : List String) (tokens : List TokenCG) (rows : List Row) : List Row :=
  (bucketsCG keys rows).map (fun b =>
    (tokens.filter (fun t => t.isAgg)).foldl
      (fun o t => jsSet o t.aliasName (applyAggCG t b.2)) (b.2.headD []))

/-! ### The HEADERCOLUMNUPPERCASE hint (`src/chatgpt.js` lines 332-333) -/

/-- `Object.fromEntries(entries)`: assign the pairs one by one into a fresh
object — a repeated key overwrites the value in its original slot. -/
def fromEntries (l : List (String × Value)) : Row :=
  l.foldl (fun acc p => jsSet acc p.1 p.2) []

/-- The per-row transform of line 333: rewrite every key to uppercase and
rebuild the object. -/
def upRow (r : Row) : Row :=
  fromEntries (r.map (fun p => (jsUpperStr p.1, p.2)))

/-- The HEADERCOLUMNUPPERCASE hint applied to a projected result
(lines 332-333). -/
def applyUpperHint (result : List Row) : List Row := result.map upRow

/-! ### ORDER BY comparator and window stage of `src/index.js`
(second engine: `applyOrderBy` lines 393-408, window stage lines 417-432).
`src/backup.js` lines 99-114 and 126-139 contain the same `applyOrderBy`
and the same per-partition rank assignment; the shared pieces below are
parameterised by the partition-key function, which is the only
difference (`String(r[col])` in index.js vs `String(r[col] ?? "default")`
in backup.js). -/

/-- One ORDER BY item: column text and ASC flag
(`{ expr: t[0], dir: (t[1] || "ASC").toUpperCase() }`). -/
structure OrderItem where
  expr : String
  asc : Bool
deriving DecidableEq, Repr

/-- Split a string on runs of whitespace (`javascript .split(/\s+/)`),
dropping empty pieces except a possible leading one; the call sites trim
first, so only the non-empty pieces matter. -/
def splitWsRuns (s : String) : List String :=
  (((s.data.splitOnP (fun c => isSpaceChar c)).filter (fun l => ¬ l.isEmpty)).map
    fun l => (⟨l⟩ : String))

/-- Split a string on a single character. -/
def splitOnChar (c : Char) (s : String) : List String :=
  (s.data.splitOnP (fun d => d = c)).map (fun l => (⟨l⟩ : String))

/-- Parse an ORDER BY clause (`orderClause.split(",")`, then per part
`trim().split(/\s+/)`; direction defaults to ASC, anything other than
`DESC` after upper-casing is treated as ASC by the comparator). -/
def parseOrderItems (clause : String) : List OrderItem :=
  (splitOnChar ',' clause).map (fun p =>
    let t := splitWsRuns (jsTrim p)
    { expr := jsTrim (t.headD ""),
      asc := ¬ (jsUpperStr (t.getD 1 "ASC") = "DESC") })

/-- One comparison of the `applyOrderBy` comparator (lines 399-406): read
both values; if neither is `isNaN` convert both with `Number`; then the
JavaScript `<` / `>` tests decide the ordering, flipped for DESC. -/
def orderCmp (it : OrderItem) (a b : Row) : Ordering :=
  let av := jsIndex a it.expr
  let bv := jsIndex b it.expr
  let av1 := if ¬ jsIsNaN av ∧ ¬ jsIsNaN bv then Value.vNum (jsToNumber av) else av
  let bv1 := if ¬ jsIsNaN av ∧ ¬ jsIsNaN bv then Value.vNum (jsToNumber bv) else bv
  if jsRelLt av1 bv1 then (if it.asc then Ordering.lt else Ordering.gt)
  else if jsRelLt bv1 av1 then (if it.asc then Ordering.gt else Ordering.lt)
  else Ordering.eq

/-- The full comparator: first non-equal ORDER BY item decides. -/
def orderCmpAll (items : List OrderItem) (a b : Row) : Ordering :=
  match items with
  | [] => Ordering.eq
  | it :: rest =>
      match orderCmp it a b with
      | Ordering.eq => orderCmpAll rest a b
      | o => o

/-- Not-greater relation used to model the stable comparator sort
(`[...rows].sort(cmp)`; ES2019 requires `Array.prototype.sort` to be
stable, which `List.insertionSort` with this relation also is). -/
def orderLe (items : List OrderItem) (a b : Row) : Prop :=
  orderCmpAll items a b ≠ Ordering.gt

instance (items : List OrderItem) : DecidableRel (orderLe items) :=
  fun a b => by unfold orderLe; infer_instance

/-- `applyOrderBy(rows, orderClause)` of `src/index.js` lines 393-408 /
`src/backup.js` lines 99-114: no clause means the rows pass through
untouched, otherwise a stable comparator sort of a copy of the list. -/
def applyOrderBy (clause : Option String) (rows : List Row) : List Row :=
  match clause with
  | none => rows
  | some c => List.insertionSort (orderLe (parseOrderItems c)) rows

/-- The partition key of `src/index.js` line 423:
`partCols.map(col => String(r[col])).join('|')`; `partCols` is empty when
`PARTITION BY` is absent, putting every row into the single `""` bucket. -/
def partKeyIdx (partCols : List String) (r : Row) : String :=
  jsJoin "|" (partCols.map (fun c => jsToString (jsIndex r c)))

/-- The partition key of `src/backup.js` line 130:
`String(r[col] ?? "default")`. -/
def partKeyBk (partCols : List String) (r : Row) : String :=
  jsJoin "|" (partCols.map (fun c =>
    let v := jsIndex r c
    jsToString (if isNullish v then Value.vStr "default" else v)))

/-- Row at a list position (the rows of the engine live in a JS array;
the index is the row object's identity for the mutation model). -/
def rowAt (rows : List Row) (i : ℕ) : Row := rows.getD i []

/-- The member indices, in input order, of the partition bucket with key
`k` (the `partitions[key].push(r)` fold of lines 422-426, viewed through
row indices). -/
def partIdxs (key : Row → String) (rows : List Row) (k : String) : List ℕ :=
  (List.range rows.length).filter (fun i => key (rowAt rows i) = k)

/-- Index-level ordering: compare the rows the indices stand for. -/
def idxLe (items : List OrderItem) (rows : List Row) (i j : ℕ) : Prop :=
  orderLe items (rowAt rows i) (rowAt rows j)

instance (items : List OrderItem) (rows : List Row) :
    DecidableRel (idxLe items rows) :=
  fun i j => by unfold idxLe; infer_instance

/-- A partition bucket sorted by the window's internal ORDER BY
(`applyOrderBy(pRows, t.windowOrder)`, line 429): an absent clause keeps
the bucket's input order; otherwise the stable comparator sort. -/
def sortedPartIdxs (key : Row → String) (ord : Option String)
    (rows : List Row) (k : String) : List ℕ :=
  match ord with
  | none => partIdxs key rows k
  | some c => List.insertionSort (idxLe (parseOrderItems c) rows) (partIdxs key rows k)

/-- The 1-based rank the window stage assigns to the row at index `i`
(`sorted.forEach((r, idx) => { r[t.alias] = idx + 1 })`, line 430): its
position in its own partition's sorted order. -/
def windowRank (key : Row → String) (ord : Option String)
    (rows : List Row) (i : ℕ) : ℕ :=
  (sortedPartIdxs key ord rows (key (rowAt rows i))).indexOf i + 1

/-- One window token's processing (`src/index.js` lines 418-432, and the
`t.partitionBy` branch of `src/backup.js` lines 127-138): partition the
rows, sort each partition, and write rank `idx + 1` to the window alias of
each row object.  The mutation of the shared row objects is modelled by
rebuilding the row list — same order, each row updated in place. -/
def windowApply (key : Row → String) (ord : Option String) (aliasName : String)
    (rows : List Row) : List Row :=
  (List.range rows.length).map (fun i =>
    jsSet (rowAt rows i) aliasName (Value.vNum (JNum.num (windowRank key ord rows i))))

/-! ### The `src/backup.js` engine on window queries (lines 116-150)

`executeQuery` of backup.js never copies the source table
(`let rows = sourceData`), so when `GROUP BY` is absent the window stage's
rank writes land in the caller's own row objects.  The embedding below
covers exactly the plans with no GROUP BY clause (the aliasing case); it
returns both the projected result and the caller's table as it stands
after the call, making the mutation observable. -/

/-- A window select token of backup.js `parseSQL` (lines 53-64). -/
structure WinTokBk where
  aliasName : String
  partitionBy : Option String
  windowOrder : Option String
deriving DecidableEq, Repr

/-- Process every window token in order (backup.js lines 126-139; a token
without `PARTITION BY` does nothing there). -/
def windowStageBk (toks : List WinTokBk) (rows : List Row) : List Row :=
  toks.foldl (fun rs t =>
    match t.partitionBy with
    | some pb => windowApply (partKeyBk ((splitOnChar ',' pb).map jsTrim)) t.windowOrder t.aliasName rs
    | none => rs) rows

/-- `executeQuery` of `src/backup.js` lines 116-150, restricted to plans
with no GROUP BY: `rows` aliases the caller's `sourceData`, the window
stage writes ranks through that alias, the final ORDER BY sorts a fresh
array, and the projection builds fresh objects.  Returns
(projected result, the caller's table after the call). -/
def executeQueryBk (winToks : List WinTokBk) (orderClause : Option String)
    (aliases : List String) (source : List Row) : List Row × List Row :=
  let rows := windowStageBk winToks source
  let sortedRows := applyOrderBy orderClause rows
  (sortedRows.map (fun row => aliases.map (fun a => (a, jsIndex row a))), rows)

/-! ### Arithmetic evaluation of `src/unnamed/part_001` (`evaluateExpression`,
lines 185-204)

`evaluateExpression` textually substitutes each identifier of an
arithmetic select expression with `JSON.stringify` of its row/vars value
and hands the resulting source text to `new Function(...)`, i.e. to native
JavaScript evaluation.  For a division whose operands are numeric literals
or identifiers bound in the row, the generated code computes the
JavaScript `/` of the two substituted values — modelled here by `jdiv`
after the ToNumber coercion that `/` performs.  There is no
division-by-zero guard anywhere on this path. -/

/-- An operand of an arithmetic expression handled by the `eval` pipeline
step: a numeric literal, or an identifier resolved in the row. -/
inductive ArithAtom where
  | lit (q : ℚ)
  | col (name : String)
deriving DecidableEq, Repr

/-- Substitute an operand the way `evaluateExpression` does (literals stay
themselves; identifiers become the row's value, serialised and re-read by
the generated code). -/
def atomVal (row : Row) : ArithAtom → Value
  | ArithAtom.lit q => Value.vNum (JNum.num q)
  | ArithAtom.col c => jsIndex row c

/-- Evaluation of a division expression `a / b` by the generated code of
`evaluateExpression` (src/unnamed/part_001 lines 185-204): JavaScript `/`
on the substituted operands. -/
def evalDivision (a b : ArithAtom) (row : Row) : JNum :=
  jdiv (jsToNumber (atomVal row a)) (jsToNumber (atomVal row b))

/-! ### String scanning utilities for the `src/chatgpt.js` parser
(lines 62-200).  JavaScript strings are modelled through `String.data`
(one `Char` per UTF-16 code unit; all queries are ASCII). -/

/-- Clamp a possibly-negative `slice` index the way
`String.prototype.slice` / `Array.prototype.slice` do. -/
def jsClampIdx (n : ℕ) (i : ℤ) : ℕ :=
  if i < 0 then (max 0 ((n : ℤ) + i)).toNat else min i.toNat n

/-- `arr.slice(s, e)` with JavaScript index clamping. -/
def jsListSlice {α : Type} (l : List α) (s e : ℤ) : List α :=
  let a := jsClampIdx l.length s
  let b := jsClampIdx l.length e
  (l.drop a).take (b - a)

/-- `str.slice(s, e)`. -/
def jsStrSlice (s : String) (a b : ℤ) : String := ⟨jsListSlice s.data a b⟩

/-- Numeric view of the `indexOf`-style results: a found position, or -1. -/
def idxInt (o : Option ℕ) : ℤ :=
  match o with
  | some n => (n : ℤ)
  | none => -1

/-- The scan of `findTop` (`src/chatgpt.js` lines 108-116): walk the
string tracking parenthesis depth (both updates happen before the test)
and report the first position where the depth is zero and the lowercased
keyword starts.  No word-boundary check — exactly as in the source. -/
def findTopAux (kw : List Char) : List Char → ℕ → ℤ → Option ℕ
  | [], _, _ => none
  | c :: rest, i, d =>
      let d1 : ℤ := if c = '(' then d + 1 else d
      let d2 : ℤ := if c = ')' then d1 - 1 else d1
      if d2 = 0 ∧ kw.isPrefixOf (c :: rest) then some i
      else findTopAux kw rest (i + 1) d2

/-- `findTop(sql, kw)` of `src/chatgpt.js` lines 108-116 (`none` models
the -1 of a missing keyword). -/
def findTopCG (sql kw : String) : Option ℕ :=
  findTopAux (jsLowerStr kw).data (jsLowerStr sql).data 0 0

/-- The clause-boundary helper `end(x)` of `src/chatgpt.js` line 145: the
smallest clause position greater than `x`, defaulting to the query length
(the fold with the length as initial value computes that minimum, since
every found position is below the length). -/
def endAfterCG (cands : List (Option ℕ)) (x : ℤ) (len : ℕ) : ℤ :=
  (((cands.filterMap id).map (fun n => (n : ℤ))).filter (fun i => x < i)).foldr
    min (len : ℤ)

/-- Word character of the regex `\w` class. -/
def isWordChar (c : Char) : Bool := c.isAlphanum ∨ c = '_'

/-- Length of the maximal `\w+` run at the head of the list. -/
def wordRunLen (l : List Char) : ℕ := (l.takeWhile isWordChar).length

/-- Position of the last occurrence of a character. -/
def lastIdxOf (c : Char) (l : List Char) : Option ℕ :=
  ((List.range l.length).filter (fun i => l.getD i ' ' = c)).getLast?

/-- The anchored aggregate pattern `/^(\w+)\((.*)\)/` of `parseToken`
(line 126): a leading word run, an opening parenthesis, and — `.*` being
greedy — everything up to the last `)` of the string as the argument
text.  `none` models a null regex match. -/
def anchoredFnMatch (s : String) : Option (String × String) :=
  let l := s.data
  let n := wordRunLen l
  if n = 0 then none
  else match l.drop n with
    | '(' :: _ =>
        (match lastIdxOf ')' l with
         | some j =>
             if n + 1 ≤ j then some (⟨l.take n⟩, ⟨(l.drop (n + 1)).take (j - (n + 1))⟩)
             else none
         | none => none)
    | _ => none

/-- The unanchored pattern `/(\w+)\((.*)\)/` used by the FINAL SELECT
(line 301): the leftmost word run directly followed by `(`, paired with
the text up to the last `)` of the string; the match fails when no `)`
lies beyond that `(`. -/
def fnScanAux (orig : List Char) (j : ℕ) : List Char → ℕ → Option (String × String)
  | [], _ => none
  | c :: rest, i =>
      if isWordChar c then
        let n := wordRunLen (c :: rest)
        match (c :: rest).drop n with
        | '(' :: _ =>
            if i + n + 1 ≤ j then
              some (⟨(c :: rest).take n⟩, ⟨(orig.drop (i + n + 1)).take (j - (i + n + 1))⟩)
            else fnScanAux orig j rest (i + 1)
        | _ => fnScanAux orig j rest (i + 1)
      else fnScanAux orig j rest (i + 1)

/-- Leftmost match of `/(\w+)\((.*)\)/` in `s` (function name, argument
text), or `none`. -/
def findFnCallAny (s : String) : Option (String × String) :=
  match lastIdxOf ')' s.data with
  | none => none
  | some j => fnScanAux s.data j s.data 0

/-- The window test `/over\s*\(/i.test(expr)` of `parseToken` line 123. -/
def overScan : List Char → Bool
  | [] => false
  | c :: rest =>
      ((("over".data).isPrefixOf (c :: rest)) &&
        (match ((c :: rest).drop 4).dropWhile isSpaceChar with
         | '(' :: _ => true
         | _ => false))
      || overScan rest

/-- Does the expression contain `over` followed by optional spaces and an
opening parenthesis (case-insensitively)? -/
def overParenTest (s : String) : Bool := overScan (jsLowerStr s).data

/-- The depth-aware comma split of the select list (`src/chatgpt.js`
lines 155-162): parentheses adjust depth, a depth-0 comma closes the
current buffer, and the final buffer is pushed unconditionally. -/
def depthSegsAux : List Char → ℤ → List Char → List String → List String
  | [], _, buf, acc => acc ++ [⟨buf.reverse⟩]
  | c :: rest, d, buf, acc =>
      let d1 := if c = '(' then d + 1 else d
      let d2 := if c = ')' then d1 - 1 else d1
      if c = ',' ∧ d2 = 0 then depthSegsAux rest d2 [] (acc ++ [⟨buf.reverse⟩])
      else depthSegsAux rest d2 (c :: buf) acc

/-- Split raw select-list text into raw token strings. -/
def depthCommaSegs (s : String) : List String := depthSegsAux s.data 0 [] []

/-- `splitArgs` of `src/chatgpt.js` lines 62-72: the same depth-aware
comma split, but each pushed segment is trimmed and an empty final buffer
is dropped (`if (buf) out.push(buf.trim())`). -/
def splitArgsAux : List Char → ℤ → List Char → List String → List String
  | [], _, buf, acc => if buf.isEmpty then acc else acc ++ [jsTrim ⟨buf.reverse⟩]
  | c :: rest, d, buf, acc =>
      let d1 := if c = '(' then d + 1 else d
      let d2 := if c = ')' then d1 - 1 else d1
      if c = ',' ∧ d2 = 0 then splitArgsAux rest d2 [] (acc ++ [jsTrim ⟨buf.reverse⟩])
      else splitArgsAux rest d2 (c :: buf) acc

/-- Split a function-argument list at depth-0 commas. -/
def splitArgsCG (s : String) : List String := splitArgsAux s.data 0 [] []

/-- The greedy alias pattern `/(.+) as (.+)/i` of `parseToken` line 119:
both groups being greedy, the split happens at the last ` as ` that
leaves both sides non-empty. -/
def lastAsSplit (raw : String) : Option (String × String) :=
  let low := (jsLowerStr raw).data
  let cands := (List.range low.length).filter (fun j =>
    1 ≤ j ∧ j + 4 < low.length ∧ (" as ".data).isPrefixOf (low.drop j))
  match cands.getLast? with
  | some j => some (⟨raw.data.take j⟩, ⟨raw.data.drop (j + 4)⟩)
  | none => none

/-- `expr.split('.').pop()`. -/
def splitDotLast (s : String) : String := (splitOnChar '.' s).getLastD s

/-- Remove every single or double quote (`val.replace(/['"]/g, '')`). -/
def stripQuotes (s : String) : String :=
  ⟨s.data.filter (fun c => ¬ (c = '\'' ∨ c = '"'))⟩

/-! ### Hint extraction and parsing of `src/chatgpt.js` (lines 133-200) -/

/-- Try the pattern `with\s*\(([^)]+)\)` (case-insensitive) at the head of
a lowered suffix; on success return (content offset, content length,
total match length).  `[^)]+` requires at least one non-`)` character and
the next character must be the closing `)`. -/
def hintTryAt (l : List Char) : Option (ℕ × ℕ × ℕ) :=
  if ("with".data).isPrefixOf l then
    let afterKw := l.drop 4
    let sp := (afterKw.takeWhile isSpaceChar).length
    match afterKw.drop sp with
    | '(' :: inner =>
        let content := inner.takeWhile (fun c => c ≠ ')')
        if content.isEmpty then none
        else match inner.drop content.length with
          | ')' :: _ => some (4 + sp + 1, content.length, 4 + sp + 1 + content.length + 1)
          | _ => none
    | _ => none
  else none

/-- Leftmost match of the hint pattern: (match start, content start,
content length, match end). -/
def hintScan : List Char → ℕ → Option (ℕ × ℕ × ℕ × ℕ)
  | [], _ => none
  | c :: rest, i =>
      match hintTryAt (c :: rest) with
      | some (co, cl, ml) => some (i, i + co, cl, i + ml)
      | none => hintScan rest (i + 1)

/-- Lines 134-136 of `src/chatgpt.js`: extract the `WITH(...)` hint list
(split on commas, trimmed, lowercased) and remove the matched span from
the query, trimming the remainder. -/
def extractHintsCG (sql : String) : List String × String :=
  let low := (jsLowerStr sql).data
  match hintScan low 0 with
  | some (st, cs, cl, me) =>
      let content : String := ⟨(low.drop cs).take cl⟩
      ((splitOnChar ',' content).map jsTrim,
        jsTrim ⟨sql.data.take st ++ sql.data.drop me⟩)
  | none => ([], jsTrim sql)

/-- Lines 150-153: a leading `distinct` followed by whitespace sets the
DISTINCT flag and is stripped together with the whitespace run. -/
def stripDistinct (s : String) : Bool × String :=
  let low := (jsLowerStr s).data
  if ("distinct".data).isPrefixOf low &&
      (match low.drop 8 with
       | c :: _ => isSpaceChar c
       | [] => false) then
    (true, ⟨(s.data.drop 8).dropWhile isSpaceChar⟩)
  else (false, s)

/-- Match `join\s+` at the head of a lowered suffix (the mandatory core of
the join regex); returns the consumed length. -/
def joinCore (l : List Char) : Option ℕ :=
  if ("join".data).isPrefixOf l then
    let sp := ((l.drop 4).takeWhile isSpaceChar).length
    if 1 ≤ sp then some (4 + sp) else none
  else none

/-- Match `\s*(outer)?\s*join\s+` at the head of a lowered suffix, with
the regex backtracking order (try `outer`, then without). -/
def joinTail (l : List Char) : Option ℕ :=
  let sp1 := (l.takeWhile isSpaceChar).length
  let l1 := l.drop sp1
  (if ("outer".data).isPrefixOf l1 then
     let l2 := l1.drop 5
     let sp2 := (l2.takeWhile isSpaceChar).length
     (joinCore (l2.drop sp2)).map (fun n => sp1 + 5 + sp2 + n)
   else none)
  <|> (joinCore l1).map (fun n => sp1 + n)

/-- Match the full join-header regex
`(inner|left|right|full)?\s*(outer)?\s*join\s+` (case-insensitive, the
alternatives in source order, then the empty option) at the head of a
lowered suffix; returns the captured kind word (if any) and the consumed
length. -/
def joinHeaderAt (l : List Char) : Option (Option String × ℕ) :=
  (kindTry "inner") <|> (kindTry "left") <|> (kindTry "right") <|> (kindTry "full")
  <|> (joinTail l).map (fun n => (none, n))
where
  kindTry (w : String) : Option (Option String × ℕ) :=
    if (w.data).isPrefixOf l then
      (joinTail (l.drop w.length)).map (fun n => (some w, w.length + n))
    else none

/-- First join-header match in a lowered suffix: (absolute start, kind,
absolute end). -/
def joinScanFirst : List Char → ℕ → Option (ℕ × Option String × ℕ)
  | [], _ => none
  | c :: rest, i =>
      match joinHeaderAt (c :: rest) with
      | some (k, n) => some (i, k, i + n)
      | none => joinScanFirst rest (i + 1)

/-- All join-header matches, scanned left to right without overlap (the
`exec` loop of lines 171-186 reads one match ahead and resets `lastIndex`
to it, which walks the same match sequence). -/
def joinMatchesAux : ℕ → List Char → ℕ → List (ℕ × Option String × ℕ)
  | 0, _, _ => []
  | Nat.succ fuel, l, base =>
      match joinScanFirst l base with
      | none => []
      | some (s, k, e) => (s, k, e) :: joinMatchesAux fuel (l.drop (e - base)) e

/-- Join-header matches of a FROM section. -/
def joinMatchesCG (fromPart : String) : List (ℕ × Option String × ℕ) :=
  joinMatchesAux (fromPart.length + 1) (jsLowerStr fromPart).data 0

/-- A parsed join of `src/chatgpt.js` lines 178-183. -/
structure JoinDefCG where
  kind : JoinKind
  table : String
  cond : String
deriving DecidableEq, Repr

/-- `(match[1] || 'inner').toLowerCase()`. -/
def kindOfWord : Option String → JoinKind
  | some "left" => JoinKind.left
  | some "right" => JoinKind.right
  | some "full" => JoinKind.full
  | _ => JoinKind.inner

/-- First position of the separator `\son\s` in a lowered list. -/
def findOnSep : List Char → ℕ → Option ℕ
  | [], _ => none
  | c :: rest, i =>
      if isSpaceChar c && ("on".data).isPrefixOf rest &&
          (match rest.drop 2 with
           | d :: _ => isSpaceChar d
           | [] => false) then some i
      else findOnSep rest (i + 1)

/-- `chunk.split(/\son\s/i)` destructured into `[table, cond]`
(lines 178-183): the table text before the first separator and the
condition text up to the second separator if any.  `none` models the
`TypeError` the source throws (`cond.trim()` on `undefined`) when the
chunk has no ` on ` separator at all. -/
def parseJoinChunk (chunk : String) : Option (String × String) :=
  let l := chunk.data
  let low := (jsLowerStr chunk).data
  match findOnSep low 0 with
  | none => none
  | some i =>
      let restLow := low.drop (i + 4)
      let restOrig := l.drop (i + 4)
      let condLen := match findOnSep restLow 0 with
        | some j => j
        | none => restOrig.length
      some (jsTrim ⟨l.take i⟩, jsTrim ⟨restOrig.take condLen⟩)

/-- The chunk boundaries between consecutive join-header matches (the last
chunk extends to the end of the FROM section). -/
def joinChunkSpans (ms : List (ℕ × Option String × ℕ)) (len : ℕ) :
    List (Option String × ℕ × ℕ) :=
  match ms with
  | [] => []
  | (_, k, e) :: rest =>
      let nxt := match rest with
        | (s2, _, _) :: _ => s2
        | [] => len
      (k, e, nxt) :: joinChunkSpans rest len

/-- Parse the join definitions of a FROM section (lines 169-186). -/
def parseJoinsCG (fromPart : String) : Option (List JoinDefCG) :=
  (joinChunkSpans (joinMatchesCG fromPart) fromPart.data.length).mapM
    (fun kab =>
      (parseJoinChunk ⟨(fromPart.data.drop kab.2.1).take (kab.2.2 - kab.2.1)⟩).map
        (fun tc => { kind := kindOfWord kab.1, table := tc.1, cond := tc.2 }))

/-- `parseToken` of `src/chatgpt.js` lines 118-131.  `none` models the
crash on an aggregate-looking expression with no closing parenthesis
(`mm[1]` of a null match). -/
def parseTokenCG (raw : String) : Option TokenCG :=
  let m := lastAsSplit raw
  let expr := match m with
    | some p => jsTrim p.1
    | none => jsTrim raw
  let aliasName := match m with
    | some p => jsTrim p.2
    | none => splitDotLast expr
  let lowData := (jsLowerStr expr).data
  let isAgg := ["sum(", "avg(", "count(", "min(", "max("].any
    (fun p => (p.data).isPrefixOf lowData)
  let isWin := overParenTest expr
  if isAgg then
    match anchoredFnMatch expr with
    | none => none
    | some fi =>
        some { expr := expr, aliasName := aliasName, isAgg := true,
               aggFunc := some (jsLowerStr fi.1),
               aggCol := if fi.2 = "*" then none else some fi.2,
               isWin := isWin }
  else
    some { expr := expr, aliasName := aliasName, isAgg := false,
           aggFunc := none, aggCol := none, isWin := isWin }

/-- The query plan object returned by `parseSQL` of `src/chatgpt.js`
lines 189-199.  The `limit` field holds the `Number(...)` result of the
text after `LIMIT` (`none` = clause absent, i.e. the source's `null`). -/
structure PlanCG where
  tokens : List TokenCG
  base : String
  joins : List JoinDefCG
  whereClause : Option String
  groupBy : Option String
  orderBy : Option String
  limit : Option JNum
  hints : List String
  distinct : Bool
deriving DecidableEq, Repr

/-- `parseSQL` of `src/chatgpt.js` lines 133-200: extract hints, locate
the top-level clause keywords, slice the clause texts (JavaScript `slice`
semantics, so a missing keyword contributes `-1` to the bounds), split
and parse the select list, and split the FROM section into base table and
join definitions. -/
def parseSQLcg (sql0 : String) : Option PlanCG :=
  let hs := extractHintsCG sql0
  let hints := hs.1
  let sql := hs.2
  let s := findTopCG sql "select"
  let f := findTopCG sql "from"
  let w := findTopCG sql "where"
  let g := findTopCG sql "group by"
  let o := findTopCG sql "order by"
  let lm := findTopCG sql "limit"
  let len := sql.data.length
  let endsAt := fun (x : ℤ) => endAfterCG [w, g, o, lm] x len
  let selectRaw0 := jsTrim (jsStrSlice sql (idxInt s + 6) (idxInt f))
  let ds := stripDistinct selectRaw0
  match (depthCommaSegs ds.2).mapM parseTokenCG with
  | none => none
  | some toks =>
    let fromPart := jsTrim (jsStrSlice sql (idxInt f + 4) (endsAt (idxInt f)))
    let ms := joinMatchesCG fromPart
    let baseTable := jsTrim ⟨fromPart.data.take
      (match ms with
       | m1 :: _ => m1.1
       | [] => fromPart.data.length)⟩
    match parseJoinsCG fromPart with
    | none => none
    | some joins =>
      some { tokens := toks, base := baseTable, joins := joins,
             whereClause := w.map (fun wi => jsTrim (jsStrSlice sql ((wi : ℤ) + 5) (endsAt wi))),
             groupBy := g.map (fun gi => jsTrim (jsStrSlice sql ((gi : ℤ) + 8) (endsAt gi))),
             orderBy := o.map (fun oi => jsTrim (jsStrSlice sql ((oi : ℤ) + 8) (endsAt oi))),
             limit := lm.map (fun li => jsStringToNum (jsTrim (jsStrSlice sql ((li : ℤ) + 5) (len : ℤ)))),
             hints := hints, distinct := ds.1 }

/-! ### Execution engine of `src/chatgpt.js` (`executeQuery`, lines 205-340) -/

/-- JavaScript number equality (`==` after coercion): NaN equals nothing. -/
def jnumEq : JNum → JNum → Bool
  | JNum.nan, _ => false
  | _, JNum.nan => false
  | JNum.inf, JNum.inf => true
  | JNum.negInf, JNum.negInf => true
  | JNum.num a, JNum.num b => a = b
  | _, _ => false

/-- JavaScript loose equality `a == b` on these value types: `null` and
`undefined` equal each other and nothing else; strings compare exactly
between themselves; a boolean or a mixed number/string pair compares
after numeric coercion. -/
def jsLooseEq : Value → Value → Bool
  | Value.vUndef, Value.vUndef => true
  | Value.vUndef, Value.vNull => true
  | Value.vNull, Value.vUndef => true
  | Value.vNull, Value.vNull => true
  | Value.vUndef, _ => false
  | Value.vNull, _ => false
  | _, Value.vUndef => false
  | _, Value.vNull => false
  | Value.vStr a, Value.vStr b => a = b
  | Value.vBool a, Value.vBool b => a = b
  | Value.vBool a, b => jnumEq (JNum.num (if a then 1 else 0)) (jsToNumber b)
  | a, Value.vBool b => jnumEq (jsToNumber a) (JNum.num (if b then 1 else 0))
  | Value.vNum n, Value.vStr s => jnumEq n (jsStringToNum s)
  | Value.vStr s, Value.vNum n => jnumEq (jsStringToNum s) n
  | Value.vNum a, Value.vNum b => jnumEq a b

/-- The comparison operator at the head of a condition suffix, in the
alternation order of the regex `(=|!=|>|<|>=|<=)` — because `=`, `>` and
`<` come before `>=`/`<=`, the two-character forms are never produced
except `!=`. -/
def condOpAt : List Char → Option (String × ℕ)
  | '=' :: _ => some ("=", 1)
  | '!' :: '=' :: _ => some ("!=", 2)
  | '>' :: _ => some (">", 1)
  | '<' :: _ => some ("<", 1)
  | _ => none

/-- Scan for the first operator position allowing a lazy non-empty
column group before it and a non-empty value group after it, following
`/(.+?)\s*(=|!=|>|<|>=|<=)\s*(.+)/` (line 89).  Returns the raw column
text, the operator, and the value text (with the `\s*` after the operator
consumed; if only whitespace follows, backtracking leaves exactly the
last character as the value). -/
def condMatchAux (orig : List Char) : List Char → ℕ → Option (String × String × String)
  | [], _ => none
  | c :: rest, i =>
      match condOpAt (c :: rest) with
      | some (op, n) =>
          let e := i + n
          if e < orig.length then
            let sp := ((orig.drop e).takeWhile isSpaceChar).length
            let valChars := if e + sp < orig.length then orig.drop (e + sp)
                            else orig.drop (orig.length - 1)
            some (⟨orig.take i⟩, op, ⟨valChars⟩)
          else condMatchAux orig rest (i + 1)
      | none => condMatchAux orig rest (i + 1)

/-- Match one WHERE condition against the comparison regex. -/
def condMatch (s : String) : Option (String × String × String) :=
  match s.data with
  | [] => none
  | _ :: rest => condMatchAux s.data rest 1

/-- Evaluate one matched comparison (lines 91-101): strip quotes from the
value, read the row at the trimmed column, switch both sides to numbers
when neither is `isNaN`, then apply the JavaScript operator. -/
def evalCmpCG (r : Row) (colRaw op val0 : String) : Bool :=
  let val1 := stripQuotes val0
  let rv := jsIndex r (jsTrim colRaw)
  let numeric := ¬ jsIsNaN rv ∧ ¬ jsIsNaN (Value.vStr val1)
  let a := if numeric then Value.vNum (jsToNumber rv) else rv
  let b := if numeric then Value.vNum (jsStringToNum val1) else Value.vStr val1
  if op = "=" then jsLooseEq a b
  else if op = "!=" then ¬ jsLooseEq a b
  else if op = ">" then jsRelLt b a
  else if op = "<" then jsRelLt a b
  else true

/-- Find the leftmost separator `\s+<kw>\s+` (keyword pre-lowered) in a
lowered list: a maximal whitespace run, the keyword, then at least one
more whitespace character. -/
def kwSepFind (kwd : List Char) : List Char → ℕ → Option (ℕ × ℕ)
  | [], _ => none
  | c :: rest, i =>
      if isSpaceChar c then
        let sp := ((c :: rest).takeWhile isSpaceChar).length
        let after := (c :: rest).drop sp
        if kwd.isPrefixOf after then
          let af2 := after.drop kwd.length
          let sp2 := (af2.takeWhile isSpaceChar).length
          if 1 ≤ sp2 then some (i, i + sp + kwd.length + sp2)
          else kwSepFind kwd rest (i + 1)
        else kwSepFind kwd rest (i + 1)
      else kwSepFind kwd rest (i + 1)

/-- Split on a case-insensitive `\s+<kw>\s+` separator (the conjunct
splitter `clause.split(/\s+and\s+/i)` of line 88). -/
def kwSepSplitAux (kwd : List Char) : ℕ → List Char → List Char → List String
  | 0, _, _ => []
  | Nat.succ fuel, low, orig =>
      match kwSepFind kwd low 0 with
      | none => [⟨orig⟩]
      | some se => (⟨orig.take se.1⟩ : String) ::
          kwSepSplitAux kwd fuel (low.drop se.2) (orig.drop se.2)

/-- Split a string on whitespace-delimited occurrences of a keyword. -/
def kwSepSplit (kw : String) (s : String) : List String :=
  kwSepSplitAux (jsLowerStr kw).data (s.data.length + 1) (jsLowerStr s).data s.data

/-- `evaluateCondition(row, clause)` of `src/chatgpt.js` lines 86-103:
a falsy clause (absent, or empty after trimming) accepts every row;
otherwise every AND-conjunct must pass, and a conjunct that does not
match the comparison regex passes vacuously. -/
def evaluateConditionCG (clause : Option String) (r : Row) : Bool :=
  match clause with
  | none => true
  | some c =>
      if c = "" then true
      else (kwSepSplit "and" c).all (fun part =>
        match condMatch part with
        | none => true
        | some cov => evalCmpCG r cov.1 cov.2.1 cov.2.2)

/-- JavaScript subtraction, for the numeric branch of the ORDER BY
comparator (`av - bv`). -/
def jsub : JNum → JNum → JNum
  | JNum.nan, _ => JNum.nan
  | _, JNum.nan => JNum.nan
  | JNum.inf, JNum.inf => JNum.nan
  | JNum.negInf, JNum.negInf => JNum.nan
  | JNum.inf, _ => JNum.inf
  | JNum.negInf, _ => JNum.negInf
  | _, JNum.inf => JNum.negInf
  | _, JNum.negInf => JNum.inf
  | JNum.num a, JNum.num b => JNum.num (a - b)

/-- Interpret a comparator return value the way `Array.prototype.sort`
does: negative keeps the pair, positive swaps it, zero and NaN tie. -/
def jnumSign : JNum → Ordering
  | JNum.nan => Ordering.eq
  | JNum.inf => Ordering.gt
  | JNum.negInf => Ordering.lt
  | JNum.num q => if q < 0 then Ordering.lt else if 0 < q then Ordering.gt else Ordering.eq

/-- The ORDER BY comparator of `src/chatgpt.js` lines 277-290: numeric
difference when both sides pass the `isNaN` test, else string comparison
(the source calls `localeCompare`, which is locale dependent; it is
modelled as code-unit comparison, and no theorem depends on this
branch). -/
def cgOrderCmp (c : String) (desc : Bool) (a b : Row) : Ordering :=
  let av := jsIndex a c
  let bv := jsIndex b c
  if ¬ jsIsNaN av ∧ ¬ jsIsNaN bv then
    jnumSign (if desc then jsub (jsToNumber bv) (jsToNumber av)
              else jsub (jsToNumber av) (jsToNumber bv))
  else
    let sa := jsToString av
    let sb := jsToString bv
    if desc then (if sb < sa then Ordering.lt else if sa < sb then Ordering.gt else Ordering.eq)
    else (if sa < sb then Ordering.lt else if sb < sa then Ordering.gt else Ordering.eq)

/-- Not-greater relation of the chatgpt.js ORDER BY comparator. -/
def cgOrderLe (c : String) (desc : Bool) (a b : Row) : Prop :=
  cgOrderCmp c desc a b ≠ Ordering.gt

instance (c : String) (desc : Bool) : DecidableRel (cgOrderLe c desc) :=
  fun a b => by unfold cgOrderLe; infer_instance

/-- The ORDER BY stage (lines 273-291): split the clause on whitespace
into column and direction (`DESC` after upper-casing descends, anything
else ascends) and sort the rows in place — modelled by a stable sort
(`Array.prototype.sort` is stable since ES2019). -/
def applyOrderByCG (clause : String) (rows : List Row) : List Row :=
  let ws := splitWsRuns clause
  let c := ws.headD ""
  let desc := match ws.get? 1 with
    | some d => jsUpperStr d = "DESC"
    | none => false
  List.insertionSort (cgOrderLe c desc) rows

/-- The LIMIT stage (`if (p.limit) rows = rows.slice(0, p.limit)`,
line 295): a falsy limit — absent, NaN, or 0 — leaves the rows alone;
otherwise the slice keeps the first `limit` rows (with the JavaScript
clamping for negative or infinite values). -/
def applyLimitCG (lim : Option JNum) (rows : List Row) : List Row :=
  match lim with
  | none => rows
  | some JNum.nan => rows
  | some JNum.inf => rows
  | some JNum.negInf => []
  | some (JNum.num q) =>
      if q = 0 then rows
      else jsListSlice rows 0 (Int.tdiv q.num (q.den : ℤ))

/-- One select item of the FINAL SELECT (lines 300-313): a recognised
function call over the registry is invoked on its split arguments (each
argument resolving to the row value, or to its unquoted text when the row
lacks it); anything else is a column read — through the last
dot-segment when the expression is qualified — with nullish results
replaced by the `'NULL'` marker. -/
def evalSelectItemCG (t : TokenCG) (r : Row) : Value :=
  let fallbackCol : Value :=
    let col := if t.expr.data.contains '.' then splitDotLast t.expr else t.expr
    let v := jsIndex r col
    if isNullish v then Value.vStr "NULL" else v
  match findFnCallAny t.expr with
  | some fa =>
      match sqlFunctionsCG fa.1 with
      | some fn => fn ((splitArgsCG fa.2).map (fun a =>
          let v := jsIndex r a
          if isNullish v then Value.vStr (stripQuotes a) else v))
      | none => fallbackCol
  | none => fallbackCol

/-- Project one row through the select list (`const o = {}; …`). -/
def projectRowCG (tokens : List TokenCG) (r : Row) : Row :=
  tokens.foldl (fun o t => jsSet o t.aliasName (evalSelectItemCG t r)) []

/-- The FINAL SELECT stage (lines 298-316). -/
def finalSelectCG (tokens : List TokenCG) (rows : List Row) : List Row :=
  rows.map (projectRowCG tokens)

/-- The DISTINCT stage (lines 320-328): keep the first occurrence of each
projected row (the source keys the seen-set by `JSON.stringify`, which on
these rows coincides with structural equality of the ordered entries). -/
def dedupRows : List Row → List Row :=
  go []
where
  go : List Row → List Row → List Row
    | _, [] => []
    | seen, r :: rest =>
        if r ∈ seen then go seen rest else r :: go (r :: seen) rest

/-- A dataset: table name to row list (`resolvePath` walks dot paths of
this flat namespace; a leading `data`/`root` segment is skipped). -/
abbrev DbT := List (String × List Row)

/-- `resolvePath(path, db)` of `src/chatgpt.js` lines 74-84, on a flat
dataset: drop the leading `data`/`root` segments (the loop skips them
while still at the root scope), then a single remaining segment selects a
table.  An empty remainder resolves to the root object itself and a
longer remainder indexes into a table — neither is an array, and
`executeQuery` turns both into an empty row list, modelled by `none`. -/
def resolvePathDb (path : String) (db : DbT) : Option (List Row) :=
  let parts := (splitOnChar '.' path).dropWhile (fun p => p = "data" ∨ p = "root")
  match parts with
  | [p] => (db.find? (fun e => e.1 = p)).map Prod.snd
  | _ => none

/-- The value `executeQuery` returns: a row list, or — under the
OUTPUTJSON hint — the JSON serialisation of that row list (the
serialised rows are carried; the text of `JSON.stringify(result, null,
2)` itself is display formatting). -/
inductive QueryOut where
  | rowsOut (rows : List Row)
  | jsonOut (rows : List Row)
deriving DecidableEq, Repr

/-- `executeQuery(sql, db)` of `src/chatgpt.js` lines 205-340: parse,
load the base table (shallow copies; a non-array resolution leaves the
row list empty), fold the join chain, filter by WHERE, group, order,
limit, project, deduplicate under DISTINCT, and apply the hints
(PAGINATE only displays and leaves the returned value unchanged).
`none` models the only exception path, a `TypeError` thrown while
parsing (join chunk without `ON`, aggregate token without `)`). -/
def executeQueryCG (sql : String) (db : DbT) : Option QueryOut :=
  match parseSQLcg sql with
  | none => none
  | some p =>
      let baseRows := match resolvePathDb p.base db with
        | some t => t
        | none => []
      let joined := p.joins.foldl (fun acc j =>
          let rightData := (resolvePathDb j.table db).getD []
          let parts := (splitOnChar '=' j.cond).map jsTrim
          let lKey := parts.headD ""
          let rKey := (parts.get? 1).getD "undefined"
          joinStep j.kind lKey rKey acc rightData) baseRows
      let filtered := joined.filter (evaluateConditionCG p.whereClause)
      let grouped := match p.groupBy with
        | some gc => groupStageCG ((splitOnChar ',' gc).map jsTrim) p.tokens filtered
        | none => filtered
      let ordered := match p.orderBy with
        | some oc => applyOrderByCG oc grouped
        | none => grouped
      let limited := applyLimitCG p.limit ordered
      let result := finalSelectCG p.tokens limited
      let result := if p.distinct ∧ p.groupBy = none then dedupRows result else result
      let result := if p.hints.contains "headercolumnuppercase" then applyUpperHint result
                    else result
      some (if p.hints.contains "outputjson" then QueryOut.jsonOut result
            else QueryOut.rowsOut result)

/-! ## Supporting lemmas -/

/-- Valid code points below the surrogate range round-trip through
`Char.ofNat`. -/
theorem toNat_ofNat_lt (n : ℕ) (h : n < 55296) : (Char.ofNat n).toNat = n := by
  unfold Char.ofNat Char.toNat
  split
  · rfl
  · next hv =>
    exfalso
    apply hv
    constructor
    omega

/-- Upper-casing never yields a lowercase ASCII letter. -/
theorem jsCharUp_not_lower (c : Char) :
    ¬ (97 ≤ (jsCharUp c).toNat ∧ (jsCharUp c).toNat ≤ 122) := by
  unfold jsCharUp
  split
  · next h =>
    rw [toNat_ofNat_lt (c.toNat - 32) (by omega)]
    omega
  · next h => exact h

/-- Character-level upper-casing is idempotent. -/
theorem jsCharUp_idem (c : Char) : jsCharUp (jsCharUp c) = jsCharUp c := by
  conv_lhs => rw [jsCharUp]
  rw [if_neg (jsCharUp_not_lower c)]

/-- String-level upper-casing is idempotent. -/
theorem jsUpperStr_idem (s : String) : jsUpperStr (jsUpperStr s) = jsUpperStr s := by
  unfold jsUpperStr
  apply congrArg
  simp only [List.map_map]
  exact List.map_congr_left (fun c _ => jsCharUp_idem c)

/-- Key list of a row. -/
def rowKeys (r : Row) : List String := r.map Prod.fst

/-- `jsSet` either keeps the key list (update) or appends the new key. -/
theorem rowKeys_jsSet (r : Row) (k : String) (v : Value) :
    rowKeys (jsSet r k v) = if hasKey r k then rowKeys r else rowKeys r ++ [k] := by
  unfold jsSet
  split
  · next h =>
    simp only [if_pos h, rowKeys, List.map_map]
    apply List.map_congr_left
    intro p _
    by_cases hp : p.1 = k
    · simp [hp]
    · simp [hp]
  · next h => simp [if_neg h, rowKeys]

/-- The property test agrees with key-list membership. -/
theorem hasKey_iff_mem (r : Row) (k : String) : hasKey r k = true ↔ k ∈ rowKeys r := by
  unfold hasKey rowKeys
  rw [List.find?_isSome]
  constructor
  · rintro ⟨p, hp, hpk⟩
    simp only [decide_eq_true_eq] at hpk
    exact List.mem_map.mpr ⟨p, hp, hpk⟩
  · intro hm
    rcases List.mem_map.mp hm with ⟨p, hp, hk⟩
    exact ⟨p, hp, by simp [hk]⟩

/-- A false `hasKey` means the key is absent from the key list. -/
theorem hasKey_false_not_mem {r : Row} {k : String} (h : hasKey r k = false) :
    k ∉ rowKeys r := by
  intro hmem
  have := (hasKey_iff_mem r k).mpr hmem
  rw [h] at this
  cases this

/-- `jsSet` preserves key-list distinctness. -/
theorem rowKeys_nodup_jsSet {r : Row} (k : String) (v : Value)
    (h : (rowKeys r).Nodup) : (rowKeys (jsSet r k v)).Nodup := by
  rw [rowKeys_jsSet]
  split
  · exact h
  · next hk =>
    have : k ∉ rowKeys r := hasKey_false_not_mem (by simpa using hk)
    simpa [List.nodup_append] using ⟨h, this⟩

/-- Every row built by the `fromEntries` fold has distinct keys. -/
theorem rowKeys_nodup_foldl (l : List (String × Value)) :
    ∀ acc : Row, (rowKeys acc).Nodup →
      (rowKeys (l.foldl (fun a p => jsSet a p.1 p.2) acc)).Nodup := by
  induction l with
  | nil => intro acc h; exact h
  | cons p rest ih =>
      intro acc h
      exact ih _ (rowKeys_nodup_jsSet p.1 p.2 h)

/-- `fromEntries` output always has distinct keys. -/
theorem rowKeys_nodup_fromEntries (l : List (String × Value)) :
    (rowKeys (fromEntries l)).Nodup :=
  rowKeys_nodup_foldl l [] (by simp [rowKeys])

/-- Folding `jsSet` over entries whose keys are fresh just appends them. -/
theorem foldl_jsSet_of_nodup (l : List (String × Value)) :
    ∀ acc : Row, (rowKeys (acc ++ l)).Nodup →
      l.foldl (fun a p => jsSet a p.1 p.2) acc = acc ++ l := by
  induction l with
  | nil => intro acc _; simp
  | cons p rest ih =>
      intro acc h
      have hkeys : rowKeys (acc ++ p :: rest) =
          rowKeys acc ++ p.1 :: rowKeys rest := by
        simp [rowKeys]
      have hflat : (rowKeys acc ++ p.1 :: rowKeys rest).Nodup := by
        rw [← hkeys]; exact h
      have hnotmem : p.1 ∉ rowKeys acc := by
        intro hm
        rcases (List.nodup_append.mp hflat) with ⟨_, _, hdisj⟩
        exact hdisj hm (by simp)
      have hhk : hasKey acc p.1 = false := by
        cases hb : hasKey acc p.1
        · rfl
        · exact absurd ((hasKey_iff_mem acc p.1).mp hb) hnotmem
      have hset : jsSet acc p.1 p.2 = acc ++ [p] := by
        unfold jsSet
        rw [hhk]
        simp
      have hnext : (rowKeys ((acc ++ [p]) ++ rest)).Nodup := by
        rw [show (acc ++ [p]) ++ rest = acc ++ p :: rest by simp]
        exact h
      rw [List.foldl_cons, hset, ih (acc ++ [p]) hnext]
      simp

/-- On an entry list with distinct keys, `fromEntries` is the identity. -/
theorem fromEntries_eq_self {l : List (String × Value)}
    (h : (rowKeys l).Nodup) : fromEntries l = l :=
  foldl_jsSet_of_nodup l [] (by simpa [rowKeys] using h)

/-- A key of the `fromEntries` fold output comes from the accumulator or
the entry list. -/
theorem mem_rowKeys_foldl {k : String} (l : List (String × Value)) :
    ∀ acc : Row, k ∈ rowKeys (l.foldl (fun a p => jsSet a p.1 p.2) acc) →
      k ∈ rowKeys acc ∨ k ∈ rowKeys l := by
  induction l with
  | nil => intro acc h; exact Or.inl h
  | cons p rest ih =>
      intro acc h
      rcases ih _ h with h1 | h2
      · rw [rowKeys_jsSet] at h1
        split at h1
        · exact Or.inl h1
        · rcases List.mem_append.mp h1 with ha | hb
          · exact Or.inl ha
          · simp only [List.mem_singleton] at hb
            subst hb
            exact Or.inr (by simp [rowKeys])
      · exact Or.inr (by simp [rowKeys] at h2 ⊢; exact Or.inr h2)

/-- Every key of a `fromEntries` result is a key of the entry list. -/
theorem mem_rowKeys_fromEntries {k : String} {l : List (String × Value)}
    (h : k ∈ rowKeys (fromEntries l)) : k ∈ rowKeys l := by
  rcases mem_rowKeys_foldl l [] h with h1 | h2
  · simp [rowKeys] at h1
  · exact h2

/-- Rewriting the keys of an already-uppercased row changes nothing, so
the per-row hint transform is idempotent. -/
theorem upRow_idem (r : Row) : upRow (upRow r) = upRow r := by
  have hnodup : (rowKeys (upRow r)).Nodup := rowKeys_nodup_fromEntries _
  have hfix : (upRow r).map (fun p => (jsUpperStr p.1, p.2)) = upRow r := by
    have : ∀ p ∈ upRow r, (jsUpperStr p.1, p.2) = p := by
      intro p hp
      have hkey : p.1 ∈ rowKeys (upRow r) :=
        List.mem_map.mpr ⟨p, hp, rfl⟩
      have hsrc : p.1 ∈ rowKeys (r.map (fun q => (jsUpperStr q.1, q.2))) :=
        mem_rowKeys_fromEntries hkey
      have hex : ∃ q0 ∈ r, jsUpperStr q0.1 = p.1 := by
        simpa [rowKeys, List.mem_map] using hsrc
      rcases hex with ⟨q0, _, hq0⟩
      have hfixkey : jsUpperStr p.1 = p.1 := by
        rw [← hq0, jsUpperStr_idem]
      exact Prod.ext hfixkey rfl
    calc (upRow r).map (fun p => (jsUpperStr p.1, p.2))
        = (upRow r).map id := List.map_congr_left this
      _ = upRow r := List.map_id _
  show fromEntries ((upRow r).map (fun p => (jsUpperStr p.1, p.2))) = upRow r
  rw [hfix]
  exact fromEntries_eq_self hnodup

/-! ## Claim C9 -/

/-- C9: applying the HEADERCOLUMNUPPERCASE hint transformation
(`src/chatgpt.js` lines 332-333, rewriting every output key to uppercase)
twice to a sequence of projected output rows yields the same result as
applying it once. -/
theorem claim_c9_upper_hint_idempotent (result : List Row) :
    applyUpperHint (applyUpperHint result) = applyUpperHint result := by
  unfold applyUpperHint
  rw [List.map_map]
  exact List.map_congr_left (fun r _ => upRow_idem r)

/-! ## Claim C10 -/

/-- Folding the index.js sum step over values that never coerce to an
infinity always stays a finite number: a NaN coercion is replaced by 0
before the addition. -/
theorem sumStepIdx_foldl_num (l : List Value) :
    ∀ a : ℚ, (∀ v ∈ l, jsToNumber v ≠ JNum.inf ∧ jsToNumber v ≠ JNum.negInf) →
      ∃ q : ℚ, l.foldl sumStepIdx (JNum.num a) = JNum.num q := by
  induction l with
  | nil => intro a _; exact ⟨a, rfl⟩
  | cons v rest ih =>
      intro a h
      have hv := h v (by simp)
      have hstep : ∃ a1 : ℚ, sumStepIdx (JNum.num a) v = JNum.num a1 := by
        unfold sumStepIdx
        cases hx : jsToNumber v with
        | nan => exact ⟨a + 0, rfl⟩
        | inf => exact absurd hx hv.1
        | negInf => exact absurd hx hv.2
        | num q => exact ⟨a + q, rfl⟩
      rcases hstep with ⟨a1, ha1⟩
      rw [List.foldl_cons, ha1]
      exact ih a1 (fun w hw => h w (by simp [hw]))

/-- Division of finite numbers with a non-zero divisor is exact. -/
theorem jdiv_num_num (a b : ℚ) (hb : b ≠ 0) :
    jdiv (JNum.num a) (JNum.num b) = JNum.num (a / b) := by
  simp [jdiv, hb]

/-- C10 counterexample: the claim says the registered `sum`/`avg`
aggregates treat every kept non-numeric value as 0 and never return NaN —
but the `src/chatgpt.js` variants (lines 43-48) compute
`a + Number(b || 0)`, so a kept truthy value that fails numeric coercion
(here the string `"abc"`) drives both aggregates to NaN. -/
theorem claim_c10_counterexample :
    sumCG [Value.vStr "abc"] = JNum.nan ∧
    avgCG [Value.vStr "abc"] = JNum.nan ∧
    JNum.nan ≠ JNum.num 0 := by decide

/-- C10 amended: the `src/index.js` aggregates (lines 7-15, computing
`a + (Number(b) || 0)`) do treat every kept value that coerces to NaN as
0; on inputs none of whose values coerce to an infinity, `sum` and `avg`
always return a finite number, the empty (or all-filtered) input summing
to 0 and averaging to 0.  The `src/chatgpt.js` variants lack this
property (see the counterexample). -/
theorem claim_c10_amended :
    (∀ vals : List Value,
      (∀ v ∈ vals, jsToNumber v ≠ JNum.inf ∧ jsToNumber v ≠ JNum.negInf) →
      (∃ q : ℚ, sumIdx vals = JNum.num q) ∧ (∃ q : ℚ, avgIdx vals = JNum.num q)) ∧
    sumIdx [] = JNum.num 0 ∧ avgIdx [] = JNum.num 0 ∧
    (∀ (v : Value) (vals : List Value), jsToNumber v = JNum.nan →
      sumIdx (v :: vals) = sumIdx vals) := by
  refine ⟨?_, by decide, by decide, ?_⟩
  · intro vals h
    have hfil : ∀ v ∈ vals.filter keepAggVal,
        jsToNumber v ≠ JNum.inf ∧ jsToNumber v ≠ JNum.negInf :=
      fun v hv => h v (List.mem_of_mem_filter hv)
    constructor
    · exact sumStepIdx_foldl_num _ 0 hfil
    · unfold avgIdx
      by_cases hlen : (vals.filter keepAggVal).length = 0
      · rw [if_pos hlen]; exact ⟨0, rfl⟩
      · rw [if_neg hlen]
        rcases sumStepIdx_foldl_num (vals.filter keepAggVal) 0 hfil with ⟨s, hs⟩
        rw [hs]
        exact ⟨s / (vals.filter keepAggVal).length,
          jdiv_num_num _ _ (by exact_mod_cast hlen)⟩
  · intro v vals hv
    unfold sumIdx
    by_cases hk : keepAggVal v = true
    · rw [List.filter_cons_of_pos hk, List.foldl_cons]
      have : sumStepIdx (JNum.num 0) v = JNum.num 0 := by
        unfold sumStepIdx
        rw [hv]
        norm_num [jadd]
      rw [this]
    · rw [List.filter_cons_of_neg (by simpa using hk)]

/-- C10 witness: the amended theorem applied at a concrete input whose
only non-filtered values are a NaN-coercing string and the number 3. -/
theorem claim_c10_amended_witness :
    (∃ q : ℚ, sumIdx [Value.vStr "abc", Value.vNum (JNum.num 3)] = JNum.num q) ∧
    sumIdx [] = JNum.num 0 := by
  constructor
  · exact (claim_c10_amended.1 [Value.vStr "abc", Value.vNum (JNum.num 3)] (by decide)).1
  · exact claim_c10_amended.2.1

/-! ## Claim C7 -/

/-- C7 counterexample: the claim says a division whose right operand
coerces to zero returns the dividend unchanged — but the evaluator of
`src/unnamed/part_001` (lines 185-204) hands the substituted expression
to native JavaScript evaluation, so `10 / 0` yields `Infinity`, not the
dividend 10. -/
theorem claim_c7_counterexample :
    evalDivision (ArithAtom.lit 10) (ArithAtom.lit 0) [] = JNum.inf ∧
    JNum.inf ≠ JNum.num 10 := by decide

/-- C7 amended: a division whose right operand coerces to zero evaluates
without a runtime fault to `Infinity` for a positive dividend,
`-Infinity` for a negative one, and NaN for a zero or NaN dividend — the
result is never the dividend unchanged (unless the dividend itself was
already an infinity or NaN). -/
theorem claim_c7_amended (a b : ArithAtom) (row : Row)
    (h : jsToNumber (atomVal row b) = JNum.num 0) :
    evalDivision a b row =
      match jsToNumber (atomVal row a) with
      | JNum.nan => JNum.nan
      | JNum.inf => JNum.inf
      | JNum.negInf => JNum.negInf
      | JNum.num q =>
          if q = 0 then JNum.nan else if 0 < q then JNum.inf else JNum.negInf := by
  unfold evalDivision
  rw [h]
  cases hx : jsToNumber (atomVal row a) <;> simp [jdiv]

/-- C7 witness: the amended theorem applied to the division of the
literal 10 by a column holding the string "0". -/
theorem claim_c7_amended_witness :
    evalDivision (ArithAtom.lit 10) (ArithAtom.col "z") [("z", Value.vStr "0")] = JNum.inf := by
  have h := claim_c7_amended (ArithAtom.lit 10) (ArithAtom.col "z")
    [("z", Value.vStr "0")] (by decide)
  rw [h]
  decide

/-! ## Claim C1 -/

/-- Distributing a pointwise append out of a `flatMap`, up to
permutation. -/
theorem flatMap_append_perm {α β : Type} (f g : α → List β) (l : List α) :
    (l.flatMap fun x => f x ++ g x).Perm (l.flatMap f ++ l.flatMap g) := by
  induction l with
  | nil => simp
  | cons a rest ih =>
      simp only [List.flatMap_cons, List.append_assoc]
      refine List.Perm.append_left (f a) ?_
      refine (List.Perm.append_left (g a) ih).trans ?_
      exact List.perm_append_comm_assoc _ _ _

/-- A `flatMap` of singleton-or-empty is a `filter`. -/
theorem flatMap_ite_eq_filter {α : Type} (q : α → Bool) (l : List α) :
    (l.flatMap fun x => if q x then [x] else []) = l.filter q := by
  induction l with
  | nil => simp
  | cons a rest ih =>
      by_cases h : q a <;> simp [List.flatMap_cons, h, ih, List.filter_cons]

/-- The inner join emits exactly the merged matching pairs. -/
theorem joinStep_inner_eq (lKey rKey : String) (L R : List Row) :
    joinStep JoinKind.inner lKey rKey L R =
      L.flatMap (fun l => (R.filter (joinKeyEq lKey rKey l)).map (mergeRows l)) := by
  unfold joinStep
  simp [keepsLeft, keepsRight]

/-- C1 counterexample: the claim says an unmatched preserved-side row is
emitted "with the other side's columns null-padded" — but the join loop
of `src/chatgpt.js` (line 233, `out.push({ ...leftRow })`) emits a plain
copy of the left row: for a left join of `[{a: 1}]` against `[{b: 2}]`
on `a = b`, the single output row has no key `b` at all. -/
theorem claim_c1_counterexample :
    joinStep JoinKind.left "a" "b"
        [[("a", Value.vNum (JNum.num 1))]] [[("b", Value.vNum (JNum.num 2))]]
      = [[("a", Value.vNum (JNum.num 1))]] ∧
    hasKey [("a", Value.vNum (JNum.num 1))] "b" = false := by decide

/-- C1 amended: for every join of kind Inner, the result cardinality
equals the number of (left, right) row pairs whose string-coerced key
values are equal; for Left/Right/Full the result additionally contains —
as a sublist for Right, up to permutation for Left/Full, because
unmatched left rows are interleaved — exactly the unmatched rows of the
preserved side(s), emitted once each carrying only that side's own
columns (no null-padding at the join stage; missing columns surface as
the `'NULL'` marker only in the final projection). -/
theorem claim_c1_amended (lKey rKey : String) (L R : List Row) :
    (joinStep JoinKind.inner lKey rKey L R).length
        = (L.map (fun l => (R.filter (joinKeyEq lKey rKey l)).length)).sum ∧
    joinStep JoinKind.right lKey rKey L R
        = joinStep JoinKind.inner lKey rKey L R
          ++ R.filter (fun r => L.all fun l => ¬ joinKeyEq lKey rKey l r) ∧
    (joinStep JoinKind.left lKey rKey L R).Perm
        (joinStep JoinKind.inner lKey rKey L R
          ++ L.filter (fun l => (R.filter (joinKeyEq lKey rKey l)).isEmpty)) ∧
    (joinStep JoinKind.full lKey rKey L R).Perm
        ((joinStep JoinKind.inner lKey rKey L R
          ++ L.filter (fun l => (R.filter (joinKeyEq lKey rKey l)).isEmpty))
          ++ R.filter (fun r => L.all fun l => ¬ joinKeyEq lKey rKey l r)) ∧
    (joinStep JoinKind.left lKey rKey L R).length
        = (joinStep JoinKind.inner lKey rKey L R).length
          + (L.filter (fun l => (R.filter (joinKeyEq lKey rKey l)).isEmpty)).length ∧
    (joinStep JoinKind.right lKey rKey L R).length
        = (joinStep JoinKind.inner lKey rKey L R).length
          + (R.filter (fun r => L.all fun l => ¬ joinKeyEq lKey rKey l r)).length ∧
    (joinStep JoinKind.full lKey rKey L R).length
        = (joinStep JoinKind.inner lKey rKey L R).length
          + (L.filter (fun l => (R.filter (joinKeyEq lKey rKey l)).isEmpty)).length
          + (R.filter (fun r => L.all fun l => ¬ joinKeyEq lKey rKey l r)).length := by
  have hinnerlen : (joinStep JoinKind.inner lKey rKey L R).length
      = (L.map (fun l => (R.filter (joinKeyEq lKey rKey l)).length)).sum := by
    rw [joinStep_inner_eq, List.length_flatMap]
    congr 1
    apply List.map_congr_left
    intro l _
    simp
  have hright : joinStep JoinKind.right lKey rKey L R
      = joinStep JoinKind.inner lKey rKey L R
        ++ R.filter (fun r => L.all fun l => ¬ joinKeyEq lKey rKey l r) := by
    rw [joinStep_inner_eq]
    unfold joinStep
    simp [keepsLeft, keepsRight]
  have eleft : joinStep JoinKind.left lKey rKey L R
      = L.flatMap (fun l =>
          (R.filter (joinKeyEq lKey rKey l)).map (mergeRows l) ++
            (if (R.filter (joinKeyEq lKey rKey l)).isEmpty then [l] else [])) := by
    unfold joinStep
    simp [keepsLeft, keepsRight]
  have efull : joinStep JoinKind.full lKey rKey L R
      = (L.flatMap (fun l =>
          (R.filter (joinKeyEq lKey rKey l)).map (mergeRows l) ++
            (if (R.filter (joinKeyEq lKey rKey l)).isEmpty then [l] else [])))
        ++ R.filter (fun r => L.all fun l => ¬ joinKeyEq lKey rKey l r) := by
    unfold joinStep
    simp [keepsLeft, keepsRight]
  have hsplit : (L.flatMap (fun l =>
      (R.filter (joinKeyEq lKey rKey l)).map (mergeRows l) ++
        (if (R.filter (joinKeyEq lKey rKey l)).isEmpty then [l] else []))).Perm
      (joinStep JoinKind.inner lKey rKey L R
        ++ L.filter (fun l => (R.filter (joinKeyEq lKey rKey l)).isEmpty)) := by
    rw [joinStep_inner_eq]
    refine (flatMap_append_perm _ _ L).trans ?_
    rw [flatMap_ite_eq_filter (fun l => (R.filter (joinKeyEq lKey rKey l)).isEmpty) L]
  have hleft : (joinStep JoinKind.left lKey rKey L R).Perm
      (joinStep JoinKind.inner lKey rKey L R
        ++ L.filter (fun l => (R.filter (joinKeyEq lKey rKey l)).isEmpty)) := by
    rw [eleft]
    exact hsplit
  have hfull : (joinStep JoinKind.full lKey rKey L R).Perm
      ((joinStep JoinKind.inner lKey rKey L R
        ++ L.filter (fun l => (R.filter (joinKeyEq lKey rKey l)).isEmpty))
        ++ R.filter (fun r => L.all fun l => ¬ joinKeyEq lKey rKey l r)) := by
    rw [efull]
    exact List.Perm.append_right _ hsplit
  refine ⟨hinnerlen, hright, hleft, hfull, ?_, ?_, ?_⟩
  · rw [hleft.length_eq, List.length_append]
  · rw [hright, List.length_append]
  · rw [hfull.length_eq, List.length_append, List.length_append]

/-! ## Claim C3 -/

/-- Splitting at the first separator occurrence is unambiguous when both
prefixes avoid the separator. -/
theorem sep_append_inj :
    ∀ (a b u v : List Char), '|' ∉ a → '|' ∉ b →
      a ++ '|' :: u = b ++ '|' :: v → a = b ∧ u = v := by
  intro a
  induction a with
  | nil =>
      intro b u v _ hb h
      cases b with
      | nil => simpa using h
      | cons c bt =>
          exfalso
          simp only [List.nil_append, List.cons_append, List.cons.injEq] at h
          exact hb (by rw [h.1]; simp)
  | cons c ct ih =>
      intro b u v ha hb h
      cases b with
      | nil =>
          exfalso
          simp only [List.cons_append, List.nil_append, List.cons.injEq] at h
          exact ha (by rw [← h.1]; simp)
      | cons d dt =>
          simp only [List.cons_append, List.cons.injEq] at h
          have ht := ih dt u v (fun hm => ha (by simp [hm]))
            (fun hm => hb (by simp [hm])) h.2
          exact ⟨by rw [h.1, ht.1], ht.2⟩

/-- The `'|'`-join is injective on equally-long tuples of coerced values
that avoid the separator. -/
theorem jsJoin_pipe_inj :
    ∀ (xs ys : List String), xs.length = ys.length →
      (∀ x ∈ xs, '|' ∉ x.data) → (∀ y ∈ ys, '|' ∉ y.data) →
      jsJoin "|" xs = jsJoin "|" ys → xs = ys := by
  intro xs
  induction xs with
  | nil =>
      intro ys hlen _ _ _
      cases ys with
      | nil => rfl
      | cons _ _ => simp at hlen
  | cons x xt ih =>
      intro ys hlen hxs hys heq
      cases ys with
      | nil => simp at hlen
      | cons y yt =>
          cases xt with
          | nil =>
              cases yt with
              | nil => simpa [jsJoin] using heq
              | cons _ _ => simp at hlen
          | cons x2 xt2 =>
              cases yt with
              | nil => simp at hlen
              | cons y2 yt2 =>
                  have hdata : x.data ++ '|' :: (jsJoin "|" (x2 :: xt2)).data
                      = y.data ++ '|' :: (jsJoin "|" (y2 :: yt2)).data := by
                    have h1 : jsJoin "|" (x :: x2 :: xt2)
                        = x ++ "|" ++ jsJoin "|" (x2 :: xt2) := rfl
                    have h2 : jsJoin "|" (y :: y2 :: yt2)
                        = y ++ "|" ++ jsJoin "|" (y2 :: yt2) := rfl
                    have := congrArg String.data (h1 ▸ h2 ▸ heq)
                    simpa [String.data_append] using this
                  have hsplit := sep_append_inj x.data y.data _ _
                    (hxs x (by simp)) (hys y (by simp)) hdata
                  have hx : x = y := String.ext hsplit.1
                  have ht : (x2 :: xt2) = (y2 :: yt2) := by
                    apply ih (y2 :: yt2) (by simpa using hlen)
                      (fun z hz => hxs z (by simp [hz]))
                      (fun z hz => hys z (by simp [hz]))
                    exact String.ext hsplit.2
                  rw [hx, ht]

/-- Bucket-key equality coincides with coerced-tuple equality when no
coerced value contains the `'|'` separator. -/
theorem groupKeyCG_eq_iff (keys : List String) (r1 r2 : Row)
    (h1 : ∀ c ∈ keys, '|' ∉ (joinElemToString (jsIndex r1 c)).data)
    (h2 : ∀ c ∈ keys, '|' ∉ (joinElemToString (jsIndex r2 c)).data) :
    groupKeyCG keys r1 = groupKeyCG keys r2 ↔
      keys.map (fun c => joinElemToString (jsIndex r1 c))
        = keys.map (fun c => joinElemToString (jsIndex r2 c)) := by
  constructor
  · intro h
    apply jsJoin_pipe_inj _ _ (by simp)
    · intro x hx
      rcases List.mem_map.mp hx with ⟨c, hc, hcx⟩
      rw [← hcx]
      exact h1 c hc
    · intro y hy
      rcases List.mem_map.mp hy with ⟨c, hc, hcy⟩
      rw [← hcy]
      exact h2 c hc
    · exact h
  · intro h
    unfold groupKeyCG
    rw [h]

/-- The invariant of the bucket fold: every bucket holds exactly the
processed rows bearing its key, every processed row has a bucket, and
bucket keys are distinct. -/
def bucketInv (key : Row → String) (processed : List Row)
    (acc : List (String × List Row)) : Prop :=
  (∀ b ∈ acc, b.2 = processed.filter (fun r => key r = b.1)) ∧
  (∀ r ∈ processed, ∃ ms, (key r, ms) ∈ acc) ∧
  (acc.map Prod.fst).Nodup

/-- One insertion preserves the bucket invariant. -/
theorem bucketInv_insert (key : Row → String) (processed : List Row)
    (acc : List (String × List Row)) (r : Row)
    (h : bucketInv key processed acc) :
    bucketInv key (processed ++ [r]) (insertBucket acc (key r) r) := by
  obtain ⟨hfilt, hex, hnd⟩ := h
  unfold insertBucket
  by_cases hfound : (acc.find? (fun b => b.1 = key r)).isSome
  · rw [if_pos hfound]
    rcases Option.isSome_iff_exists.mp hfound with ⟨b0, hb0⟩
    have hb0mem := List.mem_of_find?_eq_some hb0
    have hb0k : b0.1 = key r := by simpa using List.find?_some hb0
    refine ⟨?_, ?_, ?_⟩
    · intro b hb
      rcases List.mem_map.mp hb with ⟨b1, hb1, hub⟩
      by_cases hk : b1.1 = key r
      · rw [if_pos hk] at hub
        rw [← hub]
        simp only
        rw [hfilt b1 hb1, List.filter_append]
        simp [hk]
      · rw [if_neg hk] at hub
        have hk2 : ¬ key r = b1.1 := fun hh => hk hh.symm
        rw [← hub, hfilt b1 hb1, List.filter_append]
        simp [hk2]
    · intro r1 hr1
      rcases List.mem_append.mp hr1 with hr1p | hr1r
      · rcases hex r1 hr1p with ⟨ms, hms⟩
        by_cases hk : key r1 = key r
        · exact ⟨ms ++ [r], List.mem_map.mpr ⟨(key r1, ms), hms, by simp [hk]⟩⟩
        · exact ⟨ms, List.mem_map.mpr ⟨(key r1, ms), hms, by simp [hk]⟩⟩
      · simp only [List.mem_singleton] at hr1r
        subst hr1r
        exact ⟨b0.2 ++ [r1], List.mem_map.mpr ⟨b0, hb0mem, by simp [hb0k]⟩⟩
    · have : (acc.map (fun b =>
          if b.1 = key r then (b.1, b.2 ++ [r]) else b)).map Prod.fst
          = acc.map Prod.fst := by
        rw [List.map_map]
        apply List.map_congr_left
        intro b _
        by_cases hk : b.1 = key r <;> simp [hk]
      rw [show (acc.map (fun b => if b.1 = key r then (b.1, b.2 ++ [r]) else b))
          = acc.map (fun b => if b.1 = key r then (b.1, b.2 ++ [r]) else b) from rfl]
      rw [this]
      exact hnd
  · rw [if_neg hfound]
    have hnone : acc.find? (fun b => b.1 = key r) = none := by
      cases hf : acc.find? (fun b => b.1 = key r)
      · rfl
      · rw [hf] at hfound; simp at hfound
    have hnotin : ∀ b ∈ acc, b.1 ≠ key r := by
      intro b hb
      have := List.find?_eq_none.mp hnone b hb
      simpa using this
    refine ⟨?_, ?_, ?_⟩
    · intro b hb
      rcases List.mem_append.mp hb with hba | hbn
      · have hne : ¬ key r = b.1 := fun hh => hnotin b hba hh.symm
        rw [hfilt b hba, List.filter_append]
        simp [hne]
      · simp only [List.mem_singleton] at hbn
        subst hbn
        simp only
        rw [List.filter_append]
        have hempty : processed.filter (fun r1 => key r1 = key r) = [] := by
          rw [List.filter_eq_nil_iff]
          intro r1 hr1
          rcases hex r1 hr1 with ⟨ms, hms⟩
          intro hkey
          exact hnotin (key r1, ms) hms (by simpa using hkey)
        rw [hempty]
        simp
    · intro r1 hr1
      rcases List.mem_append.mp hr1 with hr1p | hr1r
      · rcases hex r1 hr1p with ⟨ms, hms⟩
        exact ⟨ms, List.mem_append_left _ hms⟩
      · simp only [List.mem_singleton] at hr1r
        subst hr1r
        exact ⟨[r1], List.mem_append_right _ (by simp)⟩
    · rw [List.map_append]
      simp only [List.map_cons, List.map_nil]
      rw [List.nodup_append]
      refine ⟨hnd, by simp, ?_⟩
      intro k hk
      rcases List.mem_map.mp hk with ⟨b, hb, hbk⟩
      simp only [List.mem_singleton]
      intro hkr
      exact hnotin b hb (by rw [hbk, hkr])

/-- The bucket fold maintains the invariant along the row list. -/
theorem bucketInv_foldl (key : Row → String) :
    ∀ (l processed : List Row) (acc : List (String × List Row)),
      bucketInv key processed acc →
      bucketInv key (processed ++ l)
        (l.foldl (fun a r => insertBucket a (key r) r) acc) := by
  intro l
  induction l with
  | nil => intro processed acc h; simpa using h
  | cons r rest ih =>
      intro processed acc h
      have step := bucketInv_insert key processed acc r h
      have := ih (processed ++ [r]) _ step
      rw [show (processed ++ [r]) ++ rest = processed ++ r :: rest by simp] at this
      exact this

/-- The buckets of the GROUP BY stage satisfy the invariant. -/
theorem bucketsCG_inv (keys : List String) (rows : List Row) :
    bucketInv (groupKeyCG keys) rows (bucketsCG keys rows) := by
  have h := bucketInv_foldl (groupKeyCG keys) rows [] []
    ⟨by simp, by simp, by simp⟩
  simpa [bucketsCG] using h

/-- C3 counterexample: the claim says differently-shaped group tuples
never collide because the separator cannot appear in coerced values — but
`src/chatgpt.js` line 257 (and `src/sw.js` line 105) join with the
printable `'|'`: the rows `{a: "x|y", b: "z"}` and `{a: "x", b: "y|z"}`
have different tuples for GROUP BY a, b yet land in a single bucket, and
the grouping stage emits one aggregated row for both. -/
theorem claim_c3_counterexample :
    (bucketsCG ["a", "b"]
      [[("a", Value.vStr "x|y"), ("b", Value.vStr "z")],
       [("a", Value.vStr "x"), ("b", Value.vStr "y|z")]]).length = 1 ∧
    (groupStageCG ["a", "b"] []
      [[("a", Value.vStr "x|y"), ("b", Value.vStr "z")],
       [("a", Value.vStr "x"), ("b", Value.vStr "y|z")]]).length = 1 ∧
    ["a", "b"].map (fun c =>
        joinElemToString (jsIndex [("a", Value.vStr "x|y"), ("b", Value.vStr "z")] c))
      ≠ ["a", "b"].map (fun c =>
        joinElemToString (jsIndex [("a", Value.vStr "x"), ("b", Value.vStr "y|z")] c)) := by
  decide

/-- C3 amended: two input rows land in the same bucket of the grouping
stage exactly when their `'|'`-joined coerced tuples coincide; provided
no coerced group value contains the separator `'|'`, this is equivalent
to equality of the coerced tuples themselves.  (Without that proviso the
equivalence fails: see the counterexample.) -/
theorem claim_c3_amended (keys : List String) (rows : List Row) (r1 r2 : Row)
    (hr1 : r1 ∈ rows) (hr2 : r2 ∈ rows)
    (h1 : ∀ c ∈ keys, '|' ∉ (joinElemToString (jsIndex r1 c)).data)
    (h2 : ∀ c ∈ keys, '|' ∉ (joinElemToString (jsIndex r2 c)).data) :
    (∃ b ∈ bucketsCG keys rows, r1 ∈ b.2 ∧ r2 ∈ b.2) ↔
      keys.map (fun c => joinElemToString (jsIndex r1 c))
        = keys.map (fun c => joinElemToString (jsIndex r2 c)) := by
  have hinv := bucketsCG_inv keys rows
  constructor
  · rintro ⟨b, hb, hm1, hm2⟩
    have e := hinv.1 b hb
    rw [e] at hm1 hm2
    have k1 : groupKeyCG keys r1 = b.1 := by
      simpa using (List.mem_filter.mp hm1).2
    have k2 : groupKeyCG keys r2 = b.1 := by
      simpa using (List.mem_filter.mp hm2).2
    exact (groupKeyCG_eq_iff keys r1 r2 h1 h2).mp (k1.trans k2.symm)
  · intro h
    have hk : groupKeyCG keys r1 = groupKeyCG keys r2 :=
      (groupKeyCG_eq_iff keys r1 r2 h1 h2).mpr h
    rcases hinv.2.1 r1 hr1 with ⟨ms, hm⟩
    refine ⟨(groupKeyCG keys r1, ms), hm, ?_, ?_⟩
    · rw [hinv.1 _ hm]
      exact List.mem_filter.mpr ⟨hr1, by simp⟩
    · rw [hinv.1 _ hm]
      exact List.mem_filter.mpr ⟨hr2, by simp [← hk]⟩

/-- C3 witness: the amended equivalence applied to two concrete rows
with distinct, separator-free group values. -/
theorem claim_c3_amended_witness :
    ((∃ b ∈ bucketsCG ["g"] [[("g", Value.vStr "u")], [("g", Value.vStr "v")]],
        [("g", Value.vStr "u")] ∈ b.2 ∧ [("g", Value.vStr "v")] ∈ b.2) ↔
      ["g"].map (fun c => joinElemToString (jsIndex [("g", Value.vStr "u")] c))
        = ["g"].map (fun c => joinElemToString (jsIndex [("g", Value.vStr "v")] c))) :=
  claim_c3_amended ["g"] [[("g", Value.vStr "u")], [("g", Value.vStr "v")]]
    [("g", Value.vStr "u")] [("g", Value.vStr "v")]
    (by decide) (by decide) (by decide) (by decide)

/-! ## Claim C2 -/

/-- Reading back a just-written property returns the written value. -/
theorem jsIndex_jsSet_self (r : Row) (k : String) (v : Value) :
    jsIndex (jsSet r k v) k = v := by
  induction r with
  | nil => simp [jsSet, hasKey, jsIndex]
  | cons p rest ih =>
      by_cases hp : p.1 = k
      · have hhk : hasKey (p :: rest) k = true := by
          simp [hasKey, List.find?_cons, hp]
        simp only [jsSet, hhk, if_true, List.map_cons, if_pos hp]
        simp [jsIndex, List.find?_cons]
      · by_cases hrest : hasKey rest k
        · have hhk : hasKey (p :: rest) k = true := by
            simp only [hasKey, List.find?_cons] at hrest ⊢
            rw [show (decide (p.1 = k)) = false by simp [hp]]
            exact hrest
          have hself : jsSet (p :: rest) k v
              = (if p.1 = k then (k, v) else p) :: rest.map (fun q => if q.1 = k then (k, v) else q) := by
            simp [jsSet, hhk]
          rw [hself, if_neg hp]
          have hrec : jsSet rest k v = rest.map (fun q => if q.1 = k then (k, v) else q) := by
            simp [jsSet, hrest]
          simp only [jsIndex, List.find?_cons]
          rw [show (decide (p.1 = k)) = false by simp [hp]]
          have := ih
          rw [hrec] at this
          exact this
        · have hrestf : hasKey rest k = false := by
            cases hb : hasKey rest k
            · rfl
            · exact absurd hb hrest
          have hhk : hasKey (p :: rest) k = false := by
            simp only [hasKey, List.find?_cons] at hrestf ⊢
            rw [show (decide (p.1 = k)) = false by simp [hp]]
            exact hrestf
          have hself : jsSet (p :: rest) k v = p :: (rest ++ [(k, v)]) := by
            simp [jsSet, hhk]
          rw [hself]
          have hrec : jsSet rest k v = rest ++ [(k, v)] := by
            simp [jsSet, hrestf]
          simp only [jsIndex, List.find?_cons]
          rw [show (decide (p.1 = k)) = false by simp [hp]]
          have := ih
          rw [hrec] at this
          exact this

/-- The partition member indices are distinct. -/
theorem partIdxs_nodup (key : Row → String) (rows : List Row) (k : String) :
    (partIdxs key rows k).Nodup :=
  (List.nodup_range rows.length).filter _

/-- A sorted partition is a permutation of the partition. -/
theorem sortedPartIdxs_perm (key : Row → String) (ord : Option String)
    (rows : List Row) (k : String) :
    (sortedPartIdxs key ord rows k).Perm (partIdxs key rows k) := by
  unfold sortedPartIdxs
  cases ord with
  | none => exact List.Perm.refl _
  | some c => exact List.perm_insertionSort _ _

/-- Membership in a partition bucket. -/
theorem mem_partIdxs {key : Row → String} {rows : List Row} {k : String} {i : ℕ} :
    i ∈ partIdxs key rows k ↔ i < rows.length ∧ key (rowAt rows i) = k := by
  unfold partIdxs
  rw [List.mem_filter, List.mem_range]
  simp

/-- The window stage rewrites the row at each position to the same row
with the rank written to the alias. -/
theorem rowAt_windowApply (key : Row → String) (ord : Option String)
    (aliasName : String) (rows : List Row) (i : ℕ) (hi : i < rows.length) :
    rowAt (windowApply key ord aliasName rows) i
      = jsSet (rowAt rows i) aliasName
          (Value.vNum (JNum.num (windowRank key ord rows i))) := by
  unfold windowApply rowAt
  rw [List.getD_eq_getElem?_getD, List.getElem?_map, List.getElem?_range hi]
  rfl

/-- On a duplicate-free list, mapping every element to its own index
recovers the range. -/
theorem map_indexOf_self {S : List ℕ} (h : S.Nodup) :
    S.map (fun i => S.indexOf i) = List.range S.length := by
  apply List.ext_getElem (by simp)
  intro j h1 h2
  simp only [List.getElem_map, List.getElem_range]
  have := List.get_indexOf h ⟨j, by simpa using h1⟩
  simpa using this

/-- C2: for every partition bucket the window stage of `src/index.js`
(lines 417-432) produces, the ranks written to the window alias over that
bucket's rows are exactly 1..n in the bucket's internal sort order —
input order when the window ORDER BY is absent — and hence, as a
multiset over the bucket, the contiguous range 1..n with no duplicates
and no gaps, where n is the bucket size. -/
theorem claim_c2_window_ranks (partCols : List String) (ord : Option String)
    (aliasName : String) (rows : List Row) (k : String)
    (_hne : partIdxs (partKeyIdx partCols) rows k ≠ []) :
    ((sortedPartIdxs (partKeyIdx partCols) ord rows k).map
        (fun i => jsIndex (rowAt (windowApply (partKeyIdx partCols) ord aliasName rows) i) aliasName))
      = (List.range (partIdxs (partKeyIdx partCols) rows k).length).map
          (fun j => Value.vNum (JNum.num ((j + 1 : ℕ) : ℚ))) ∧
    ((partIdxs (partKeyIdx partCols) rows k).map
        (fun i => jsIndex (rowAt (windowApply (partKeyIdx partCols) ord aliasName rows) i) aliasName)).Perm
      ((List.range (partIdxs (partKeyIdx partCols) rows k).length).map
          (fun j => Value.vNum (JNum.num ((j + 1 : ℕ) : ℚ)))) := by
  have hperm := sortedPartIdxs_perm (partKeyIdx partCols) ord rows k
  have hPnd := partIdxs_nodup (partKeyIdx partCols) rows k
  have hSnd : (sortedPartIdxs (partKeyIdx partCols) ord rows k).Nodup :=
    hperm.symm.nodup hPnd
  have hmain : ((sortedPartIdxs (partKeyIdx partCols) ord rows k).map
      (fun i => jsIndex (rowAt (windowApply (partKeyIdx partCols) ord aliasName rows) i) aliasName))
      = (List.range (partIdxs (partKeyIdx partCols) rows k).length).map
          (fun j => Value.vNum (JNum.num ((j + 1 : ℕ) : ℚ))) := by
    apply List.ext_getElem
    · simp [hperm.length_eq]
    intro j h1 h2
    simp only [List.getElem_map, List.getElem_range]
    set S := sortedPartIdxs (partKeyIdx partCols) ord rows k with hS
    have hjS : j < S.length := by simpa using h1
    have hmemS : S[j] ∈ S := List.getElem_mem hjS
    have hmemP : S[j] ∈ partIdxs (partKeyIdx partCols) rows k :=
      hperm.mem_iff.mp hmemS
    obtain ⟨hlt, hkey⟩ := mem_partIdxs.mp hmemP
    rw [rowAt_windowApply _ _ _ _ _ hlt, jsIndex_jsSet_self]
    have hrank : windowRank (partKeyIdx partCols) ord rows S[j] = j + 1 := by
      unfold windowRank
      rw [hkey, ← hS]
      have := List.get_indexOf hSnd ⟨j, hjS⟩
      simp only [List.get_eq_getElem] at this
      rw [this]
    rw [hrank]
  refine ⟨hmain, ?_⟩
  have hmap := hperm.map
    (fun i => jsIndex (rowAt (windowApply (partKeyIdx partCols) ord aliasName rows) i) aliasName)
  exact hmap.symm.trans (hmain ▸ List.Perm.refl _)

/-- C2 witness: the window-rank theorem at a concrete three-row table
partitioned by city, on the bucket of the two "A" rows. -/
theorem claim_c2_window_ranks_witness :
    partIdxs (partKeyIdx ["city"])
        [[("city", Value.vStr "A")], [("city", Value.vStr "B")], [("city", Value.vStr "A")]]
        "A" ≠ [] ∧
    ((sortedPartIdxs (partKeyIdx ["city"]) none
        [[("city", Value.vStr "A")], [("city", Value.vStr "B")], [("city", Value.vStr "A")]] "A").map
        (fun i => jsIndex (rowAt (windowApply (partKeyIdx ["city"]) none "r"
          [[("city", Value.vStr "A")], [("city", Value.vStr "B")], [("city", Value.vStr "A")]]) i) "r"))
      = (List.range (partIdxs (partKeyIdx ["city"])
          [[("city", Value.vStr "A")], [("city", Value.vStr "B")], [("city", Value.vStr "A")]] "A").length).map
          (fun j => Value.vNum (JNum.num ((j + 1 : ℕ) : ℚ))) :=
  ⟨by decide,
    (claim_c2_window_ranks ["city"] none "r"
      [[("city", Value.vStr "A")], [("city", Value.vStr "B")], [("city", Value.vStr "A")]]
      "A" (by decide)).1⟩

/-! ## Claim C6 -/

/-- C6 (code bug): `executeQuery` of `src/backup.js` binds
`rows = sourceData` without copying, so on a query with a partitioned
window function and no GROUP BY — here
`SELECT name, ROW_NUMBER() OVER(PARTITION BY city) as rank FROM
data.friends` over a two-row table — the window stage writes the `rank`
alias into the caller's own row objects: after the call the caller's
table differs from what was supplied.  The read-only dataset contract of
the specification is violated. -/
theorem claim_c6_backup_mutates_source :
    (executeQueryBk
        [{ aliasName := "rank", partitionBy := some "city", windowOrder := none }]
        none ["name", "rank"]
        [[("name", Value.vStr "Chris"), ("city", Value.vStr "NY")],
         [("name", Value.vStr "Emily"), ("city", Value.vStr "ATL")]]).2
      = [[("name", Value.vStr "Chris"), ("city", Value.vStr "NY"),
            ("rank", Value.vNum (JNum.num 1))],
         [("name", Value.vStr "Emily"), ("city", Value.vStr "ATL"),
            ("rank", Value.vNum (JNum.num 1))]] ∧
    (executeQueryBk
        [{ aliasName := "rank", partitionBy := some "city", windowOrder := none }]
        none ["name", "rank"]
        [[("name", Value.vStr "Chris"), ("city", Value.vStr "NY")],
         [("name", Value.vStr "Emily"), ("city", Value.vStr "ATL")]]).2
      ≠ [[("name", Value.vStr "Chris"), ("city", Value.vStr "NY")],
         [("name", Value.vStr "Emily"), ("city", Value.vStr "ATL")]] := by decide

/-! ## Claim C5 -/

/-- C5 (code bug): the claim — with the specification — requires parsing
to fail with a `MalformedQuery` error when `SELECT` is absent, aborting
before any row processing.  `parseSQL` of `src/chatgpt.js` instead feeds
the -1 of the missed keyword into slice arithmetic: on the query
`"name from friends"` the select list collapses to one empty token, the
plan parses "successfully", every row of `friends` is processed, and the
caller receives the partial result `[{"": "NULL"}]` instead of an
error. -/
theorem claim_c5_missing_select_no_error :
    executeQueryCG "name from friends"
        [("friends", [[("name", Value.vStr "Chris")]])]
      = some (QueryOut.rowsOut [[("", Value.vStr "NULL")]]) := by decide

/-! ## Claim C4 -/

/-- C4 counterexample: the claim says `LIMIT 1 OFFSET 1` over 3 rows
returns the slice [1, 2) — `max 0 (min k (n - m)) = 1` row.  But
`parseSQL` of `src/chatgpt.js` (line 196) computes
`Number("1 offset 1")`, which is NaN; NaN is falsy, so the LIMIT stage
(line 295) is skipped entirely and all 3 rows come back.  OFFSET is not
supported anywhere in this engine. -/
theorem claim_c4_counterexample :
    executeQueryCG "select a from t limit 1 offset 1"
        [("t", [[("a", Value.vStr "x")], [("a", Value.vStr "y")], [("a", Value.vStr "z")]])]
      = some (QueryOut.rowsOut
          [[("a", Value.vStr "x")], [("a", Value.vStr "y")], [("a", Value.vStr "z")]]) ∧
    (3 : ℕ) ≠ max 0 (min 1 (3 - 1)) := by decide

/-- C4 amended: a LIMIT clause whose text parses as a positive number `k`
returns exactly the slice [0, k) — the first `min k n` rows — and a
limit that is absent or NaN (as every `LIMIT k OFFSET m` text is, since
`Number("k offset m")` is NaN) leaves the row list untouched. -/
theorem claim_c4_amended (rows : List Row) (k : ℕ) (hk : 0 < k) :
    applyLimitCG (some (JNum.num (k : ℚ))) rows = rows.take k ∧
    (applyLimitCG (some (JNum.num (k : ℚ))) rows).length = min k rows.length ∧
    applyLimitCG none rows = rows ∧
    applyLimitCG (some JNum.nan) rows = rows := by
  have hq : ((k : ℚ)) ≠ 0 := by exact_mod_cast hk.ne'
  have hmain : applyLimitCG (some (JNum.num (k : ℚ))) rows = rows.take k := by
    have e1 : jsClampIdx rows.length 0 = 0 := by
      unfold jsClampIdx
      norm_num
    have e2 : jsClampIdx rows.length ((k : ℕ) : ℤ) = min k rows.length := by
      unfold jsClampIdx
      rw [if_neg (by omega : ¬ (((k : ℕ) : ℤ) < 0))]
      rw [Int.toNat_natCast]
    have e3 : Int.tdiv ((k : ℚ)).num (((k : ℚ)).den : ℤ) = ((k : ℕ) : ℤ) := by
      rw [show ((k : ℚ)).num = ((k : ℕ) : ℤ) by simp,
        show ((((k : ℚ)).den : ℕ) : ℤ) = 1 by simp, Int.tdiv_one]
    show (if ((k : ℚ)) = 0 then rows
          else jsListSlice rows 0 (Int.tdiv ((k : ℚ)).num (((k : ℚ)).den : ℤ)))
        = rows.take k
    rw [if_neg hq, e3]
    show (rows.drop (jsClampIdx rows.length 0)).take
        (jsClampIdx rows.length ((k : ℕ) : ℤ) - jsClampIdx rows.length 0) = rows.take k
    rw [e1, e2, Nat.sub_zero, List.drop_zero]
    rcases le_total k rows.length with h | h
    · rw [min_eq_left h]
    · rw [min_eq_right h, List.take_length, List.take_of_length_le h]
  refine ⟨hmain, ?_, rfl, rfl⟩
  rw [hmain, List.length_take]

/-- C4 witness: the amended LIMIT theorem applied with k = 2 over three
rows. -/
theorem claim_c4_amended_witness :
    applyLimitCG (some (JNum.num ((2 : ℕ) : ℚ)))
        [[("a", Value.vStr "x")], [("a", Value.vStr "y")], [("a", Value.vStr "z")]]
      = [[("a", Value.vStr "x")], [("a", Value.vStr "y")]] := by
  have h := (claim_c4_amended
    [[("a", Value.vStr "x")], [("a", Value.vStr "y")], [("a", Value.vStr "z")]]
    2 (by decide)).1
  rw [h]
  rfl

/-! ## Claim C8 -/

/-- C8: a select item calling a function name absent from the registry is
never a hard failure: the FINAL SELECT of `src/chatgpt.js`
(lines 300-313) falls back to a column read, which — for a call
expression with no dot that names no actual column — resolves to the
engine's `'NULL'` marker; the projection still emits one output row per
input row, and any query that parses executes to a result. -/
theorem claim_c8_unknown_function_yields_null (t : TokenCG) (r : Row)
    (tokens : List TokenCG) (rows : List Row) (f args : String)
    (hm : findFnCallAny t.expr = some (f, args))
    (hreg : sqlFunctionsCG f = none)
    (hdot : t.expr.data.contains '.' = false)
    (hrow : isNullish (jsIndex r t.expr) = true) :
    evalSelectItemCG t r = Value.vStr "NULL" ∧
    (finalSelectCG tokens rows).length = rows.length ∧
    (∀ (sql : String) (db : DbT) (p : PlanCG), parseSQLcg sql = some p →
      ∃ out, executeQueryCG sql db = some out) := by
  refine ⟨?_, by simp [finalSelectCG], ?_⟩
  · have hdot2 : ¬ ('.' ∈ t.expr.data) := by simpa using hdot
    simp [evalSelectItemCG, hm, hreg, hdot2, hrow]
  · intro sql db p hp
    unfold executeQueryCG
    rw [hp]
    exact ⟨_, rfl⟩

/-- C8 witness: the single-item projection `foo(name)` over a row that
has a `name` column but no `foo` in the registry. -/
theorem claim_c8_witness :
    evalSelectItemCG
      { expr := "foo(name)", aliasName := "x", isAgg := false,
        aggFunc := none, aggCol := none, isWin := false }
      [("name", Value.vStr "A")] = Value.vStr "NULL" :=
  (claim_c8_unknown_function_yields_null
    { expr := "foo(name)", aliasName := "x", isAgg := false,
      aggFunc := none, aggCol := none, isWin := false }
    [("name", Value.vStr "A")] [] [] "foo" "name"
    (by decide) (by rfl) (by decide) (by decide)).1

end JsonSqlParser
